import Mathlib

/-!
# Verification of `bitcoin_safe_lib.async_tools.loop_in_thread`

A shallow embedding of the `LoopInThread` scheduler
(`src/bitcoin_safe_lib/async_tools/loop_in_thread.py`) and proofs about its
keyed-scheduling strategies, callback dispatch, cleanup bookkeeping and
shutdown procedure.

The embedding models:
* the CPython `concurrent.futures.Future` state machine (the handles the
  scheduler returns are exactly such futures, either produced by
  `asyncio.run_coroutine_threadsafe` or built by hand in the degraded paths);
* Python's exception hierarchy as far as the code relies on it: on the
  Python versions this code targets (3.8+; the source comments on 3.12),
  `asyncio.CancelledError` derives from `BaseException`, not `Exception`;
* the mutable registry state of `LoopInThread` (`_tasks`, `_key_tasks`,
  `_locks`) as explicit association lists, with each Python method becoming a
  state-passing function; lock-protected regions execute atomically in this
  sequential model, and the lock/unlock structure of `run_background` is
  additionally recorded as an explicit action trace;
* the cooperative execution of the `QUEUE` wrapper as a small-step relation
  (a successor task may only leave its await-the-parent suspension once the
  parent future is terminal).
-/

namespace BitcoinSafeLib

/-- Python exceptions, as far as `loop_in_thread.py` distinguishes them:
`asyncio.CancelledError` (an alias of `concurrent.futures.CancelledError`,
deriving from `BaseException` on Python >= 3.8) versus ordinary
`Exception` subclasses (identified here by an opaque numeric code). -/
inductive PyExn where
  | cancelledError
  | exception (code : Nat)
deriving DecidableEq

/-- Whether `except Exception` catches this exception.  On Python >= 3.8
`CancelledError` derives from `BaseException` and is NOT caught. -/
def PyExn.isExceptionSubclass : PyExn → Bool
  | .cancelledError => false
  | .exception _ => true

/-- States of a CPython `concurrent.futures.Future`
(`Lib/concurrent/futures/_base.py`): PENDING, RUNNING, CANCELLED,
CANCELLED_AND_NOTIFIED, FINISHED (with a result or an exception). -/
inductive FutState where
  | pending
  | running
  | cancelled
  | cancelledNotified
  | finishedOk (v : Nat)
  | finishedErr (e : PyExn)
deriving DecidableEq

/-- Model of `Future.cancel()`: returns the new state and the boolean result.
Per CPython: a future that is neither PENDING nor RUNNING returns whether it
is already cancelled; a RUNNING future returns `False` unchanged; a PENDING
future moves to CANCELLED and returns `True` (and its done callbacks run). -/
def FutState.cancelStep : FutState → FutState × Bool
  | .pending => (.cancelled, true)
  | .running => (.running, false)
  | .cancelled => (.cancelled, true)
  | .cancelledNotified => (.cancelledNotified, true)
  | .finishedOk v => (.finishedOk v, false)
  | .finishedErr e => (.finishedErr e, false)

/-- Model of `Future.set_running_or_notify_cancel()`: PENDING moves to RUNNING
(returns `True`); CANCELLED moves to CANCELLED_AND_NOTIFIED (returns
`False`); every other state raises `InvalidStateError` (`none` here). -/
def FutState.setRunningOrNotifyCancel : FutState → Option (FutState × Bool)
  | .pending => some (.running, true)
  | .cancelled => some (.cancelledNotified, false)
  | _ => none

/-- Model of `Future.cancelled()`. -/
def FutState.isCancelled : FutState → Bool
  | .cancelled => true
  | .cancelledNotified => true
  | _ => false

/-- Model of `Future.done()`. -/
def FutState.isDone : FutState → Bool
  | .cancelled => true
  | .cancelledNotified => true
  | .finishedOk _ => true
  | .finishedErr _ => true
  | _ => false

/-- The handle built by `LoopInThread._schedule` when the loop is not
running, and by the `REJECT_NEW_TASK` branch of `run_background`:
`fut = Future(); fut.set_running_or_notify_cancel(); fut.cancel(); return fut`.
The two calls are made in this exact order. -/
def degradedHandleState : FutState :=
  match FutState.pending.setRunningOrNotifyCancel with
  | some (s, _) => s.cancelStep.1
  | none => FutState.pending

example : degradedHandleState = FutState.running := by decide

/-! ## Association lists

Python `dict`s (`self._tasks`, `self._key_tasks`, `self._locks`) are modelled
as association lists with unique keys. -/

/-- Dictionary lookup, `d.get(k)` / `d[k]`. -/
def lookupKey {α β : Type} [DecidableEq α] : List (α × β) → α → Option β
  | [], _ => none
  | (k, v) :: rest, key => if k = key then some v else lookupKey rest key

/-- Dictionary assignment `d[k] = v` (replacing an existing entry, else appending). -/
def setKey {α β : Type} [DecidableEq α] : List (α × β) → α → β → List (α × β)
  | [], key, v => [(key, v)]
  | (k, w) :: rest, key, v =>
    if k = key then (k, v) :: rest else (k, w) :: setKey rest key v

/-- Dictionary removal `d.pop(k, None)`: drop the entry with this key, if any. -/
def eraseKey {α β : Type} [DecidableEq α] : List (α × β) → α → List (α × β)
  | [], _ => []
  | (k, v) :: rest, key => if k = key then rest else (k, v) :: eraseKey rest key

theorem lookupKey_setKey_self {α β : Type} [DecidableEq α]
    (l : List (α × β)) (k : α) (v : β) : lookupKey (setKey l k v) k = some v := by
  induction l with
  | nil => simp [setKey, lookupKey]
  | cons hd tl ih =>
    obtain ⟨k', w⟩ := hd
    by_cases h : k' = k <;> simp [setKey, lookupKey, h, ih]

theorem lookupKey_setKey_ne {α β : Type} [DecidableEq α]
    (l : List (α × β)) (k k' : α) (v : β) (h : k' ≠ k) :
    lookupKey (setKey l k v) k' = lookupKey l k' := by
  induction l with
  | nil => simp [setKey, lookupKey, Ne.symm h]
  | cons hd tl ih =>
    obtain ⟨k₀, w⟩ := hd
    by_cases h₀ : k₀ = k
    · subst h₀
      simp [setKey, lookupKey, Ne.symm h]
    · simp only [setKey, if_neg h₀, lookupKey]
      by_cases h₁ : k₀ = k' <;> simp [h₁, ih]

theorem setKey_self {α β : Type} [DecidableEq α]
    (l : List (α × β)) (k : α) (v : β) (h : lookupKey l k = some v) :
    setKey l k v = l := by
  induction l with
  | nil => simp [lookupKey] at h
  | cons hd tl ih =>
    obtain ⟨k₀, w⟩ := hd
    by_cases h₀ : k₀ = k
    · subst h₀
      simp [lookupKey] at h
      simp [setKey, h]
    · simp [lookupKey, h₀] at h
      simp [setKey, h₀, ih h]

theorem lookupKey_eraseKey_ne {α β : Type} [DecidableEq α]
    (l : List (α × β)) (k k' : α) (h : k' ≠ k) :
    lookupKey (eraseKey l k) k' = lookupKey l k' := by
  induction l with
  | nil => simp [eraseKey]
  | cons hd tl ih =>
    obtain ⟨k₀, w⟩ := hd
    by_cases h₀ : k₀ = k
    · subst h₀
      simp [eraseKey, lookupKey, Ne.symm h]
    · simp only [eraseKey, if_neg h₀, lookupKey]
      by_cases h₁ : k₀ = k' <;> simp [h₁, ih]

/-- Keys of an association list. -/
def keysOf {α β : Type} (l : List (α × β)) : List α := l.map Prod.fst

theorem mem_eraseKey {α β : Type} [DecidableEq α]
    {l : List (α × β)} {k : α} {p : α × β} (h : p ∈ eraseKey l k) : p ∈ l := by
  induction l with
  | nil => simp [eraseKey] at h
  | cons hd tl ih =>
    obtain ⟨k₀, w⟩ := hd
    by_cases h₀ : k₀ = k
    · simp only [eraseKey, if_pos h₀] at h
      exact List.mem_cons_of_mem _ h
    · simp only [eraseKey, if_neg h₀, List.mem_cons] at h
      rcases h with h | h
      · exact List.mem_cons.mpr (Or.inl h)
      · exact List.mem_cons_of_mem _ (ih h)

theorem mem_setKey {α β : Type} [DecidableEq α]
    {l : List (α × β)} {k : α} {v : β} {p : α × β} (h : p ∈ setKey l k v) :
    p ∈ l ∨ p = (k, v) := by
  induction l with
  | nil => simpa [setKey] using h
  | cons hd tl ih =>
    obtain ⟨k₀, w⟩ := hd
    by_cases h₀ : k₀ = k
    · subst h₀
      simp only [setKey, if_true, List.mem_cons, eq_self_iff_true] at h
      rcases h with h | h
      · exact Or.inr (by simp [h])
      · exact Or.inl (List.mem_cons_of_mem _ h)
    · simp only [setKey, if_neg h₀, List.mem_cons] at h
      rcases h with h | h
      · exact Or.inl (List.mem_cons.mpr (Or.inl h))
      · rcases ih h with h' | h'
        · exact Or.inl (List.mem_cons_of_mem _ h')
        · exact Or.inr h'

theorem lookupKey_none_of_not_mem {α β : Type} [DecidableEq α]
    {l : List (α × β)} {k : α} (h : k ∉ keysOf l) : lookupKey l k = none := by
  induction l with
  | nil => rfl
  | cons hd tl ih =>
    obtain ⟨k₀, w⟩ := hd
    simp only [keysOf, List.map_cons, List.mem_cons, not_or] at h
    simp only [lookupKey, if_neg (Ne.symm h.1)]
    exact ih (by simpa [keysOf] using h.2)

theorem lookupKey_eraseKey_self {α β : Type} [DecidableEq α]
    (l : List (α × β)) (k : α) (h : (keysOf l).Nodup) :
    lookupKey (eraseKey l k) k = none := by
  induction l with
  | nil => simp [eraseKey, lookupKey]
  | cons hd tl ih =>
    obtain ⟨k₀, w⟩ := hd
    simp only [keysOf, List.map_cons, List.nodup_cons] at h
    by_cases h₀ : k₀ = k
    · subst h₀
      simp only [eraseKey, if_pos rfl]
      exact lookupKey_none_of_not_mem (by simpa [keysOf] using h.1)
    · simp only [eraseKey, if_neg h₀, lookupKey, if_neg h₀]
      exact ih (by simpa [keysOf] using h.2)

theorem eraseKey_not_mem {α β : Type} [DecidableEq α]
    (l : List (α × β)) (k : α) (h : lookupKey l k = none) :
    eraseKey l k = l := by
  induction l with
  | nil => rfl
  | cons hd tl ih =>
    obtain ⟨k₀, w⟩ := hd
    by_cases h₀ : k₀ = k
    · simp [lookupKey, h₀] at h
    · simp only [lookupKey, if_neg h₀] at h
      simp [eraseKey, h₀, ih h]

theorem keysOf_setKey_nodup {α β : Type} [DecidableEq α]
    (l : List (α × β)) (k : α) (v : β) (h : (keysOf l).Nodup) :
    (keysOf (setKey l k v)).Nodup := by
  induction l with
  | nil => simp [setKey, keysOf]
  | cons hd tl ih =>
    obtain ⟨k₀, w⟩ := hd
    simp only [keysOf, List.map_cons, List.nodup_cons] at h
    by_cases h₀ : k₀ = k
    · subst h₀
      simpa [setKey, keysOf, List.nodup_cons] using h
    · simp only [setKey, if_neg h₀, keysOf, List.map_cons, List.nodup_cons]
      refine ⟨?_, ih h.2⟩
      intro hm
      rcases List.mem_map.mp hm with ⟨p, hp, hpk⟩
      rcases mem_setKey hp with h' | h'
      · exact h.1 (List.mem_map.mpr ⟨p, h', hpk⟩)
      · apply h₀
        rw [h'] at hpk
        simpa using hpk.symm

theorem keysOf_eraseKey_nodup {α β : Type} [DecidableEq α]
    (l : List (α × β)) (k : α) (h : (keysOf l).Nodup) :
    (keysOf (eraseKey l k)).Nodup := by
  induction l with
  | nil => simp [eraseKey, keysOf]
  | cons hd tl ih =>
    obtain ⟨k₀, w⟩ := hd
    simp only [keysOf, List.map_cons, List.nodup_cons] at h
    by_cases h₀ : k₀ = k
    · simpa [eraseKey, h₀, keysOf] using h.2
    · simp only [eraseKey, if_neg h₀, keysOf, List.map_cons, List.nodup_cons]
      refine ⟨?_, ih h.2⟩
      intro hm
      rcases List.mem_map.mp hm with ⟨p, hp, hpk⟩
      exact h.1 (List.mem_map.mpr ⟨p, mem_eraseKey hp, hpk⟩)

/-! ## The `LoopInThread` registry state and its methods

Futures are identified by allocation order (`nextId`).  Each Python method
becomes a state-passing function; a `with lock:` block executes atomically in
this sequential model. -/

/-- A unit of work handed to the loop.  `plain` is the caller's coroutine
(identified by an opaque code); `wrapped` is the `QUEUE` strategy's
`wrapper()` closure, which first awaits `parent`; `gatherAll` is
`run_parallel`'s `gather_all()` closure over the listed sub-futures. -/
inductive Work where
  | plain (body : Nat)
  | wrapped (parent : Nat) (body : Nat)
  | gatherAll (futures : List Nat)
deriving DecidableEq

/-- The `MultipleStrategy` enum from `loop_in_thread.py`. -/
inductive MultipleStrategy where
  | QUEUE
  | REJECT_NEW_TASK
  | CANCEL_OLD_TASK
  | RUN_INDEPENDENT
deriving DecidableEq

/-- The mutable state of one `LoopInThread` instance:
`_loop`/running flag, every `Future` ever handed out (by id), the work
actually submitted to the loop, `_key_tasks`, `_locks` (presence only),
the per-handle cleanup hooks registered by `run_background`,
`_tasks` (handle → caller-supplied cancellation callback id), and the
cancellation callbacks handed to `_invoke_main` so far (in order). -/
structure SchedState where
  loopRunning : Bool
  futs : List (Nat × FutState)
  scheduled : List (Nat × Work)
  keyTasks : List (String × List Nat)
  locks : List String
  hooks : List (Nat × String)
  tasks : List (Nat × Nat)
  invoked : List Nat
  nextId : Nat
deriving DecidableEq

/-- State of the future with the given id (missing ids never arise). -/
def SchedState.futOf (st : SchedState) (id : Nat) : FutState :=
  (lookupKey st.futs id).getD FutState.pending

/-- Model of `LoopInThread._get_bucket`: `setdefault` of the bucket and of the
per-key lock, under the global state lock. -/
def SchedState.getBucket (st : SchedState) (key : String) : SchedState × List Nat :=
  let bucket := (lookupKey st.keyTasks key).getD []
  let keyTasks' :=
    match lookupKey st.keyTasks key with
    | some _ => st.keyTasks
    | none => st.keyTasks ++ [(key, [])]
  let locks' := if key ∈ st.locks then st.locks else st.locks ++ [key]
  ({ st with keyTasks := keyTasks', locks := locks' }, bucket)

/-- Model of `LoopInThread._schedule`: if the loop is not running, build the degraded
handle (see `degradedHandleState`) and do not submit the coroutine;
otherwise submit it via `asyncio.run_coroutine_threadsafe`, whose
`concurrent.futures.Future` starts out PENDING. -/
def SchedState.schedule (st : SchedState) (w : Work) : SchedState × Nat :=
  let fid := st.nextId
  if st.loopRunning then
    ({ st with futs := st.futs ++ [(fid, FutState.pending)],
               scheduled := st.scheduled ++ [(fid, w)],
               nextId := fid + 1 }, fid)
  else
    ({ st with futs := st.futs ++ [(fid, degradedHandleState)], nextId := fid + 1 }, fid)

/-- The `cleanup` done-callback that `run_background` registers for a keyed
handle: under the per-key lock, remove the handle from the bucket if still
present; if the bucket is then empty, pop both the bucket and the per-key
lock from the global maps (under the global state lock).  `dict.pop(key,
None)` on an absent key is a no-op. -/
def SchedState.cleanup (st : SchedState) (k : String) (id : Nat) : SchedState :=
  let b := (lookupKey st.keyTasks k).getD []
  let b' := b.erase id
  if b' = [] then
    { st with keyTasks := eraseKey st.keyTasks k, locks := st.locks.erase k }
  else
    { st with keyTasks := setKey st.keyTasks k b' }

/-- Run the done callbacks registered on a handle (the keyed `cleanup`
hook, when one was registered). -/
def SchedState.runHooks (st : SchedState) (id : Nat) : SchedState :=
  match lookupKey st.hooks id with
  | some k => st.cleanup k id
  | none => st

/-- Model of `LoopInThread.cancel_task`: `fut.cancel()` — which, when it moves a
PENDING future to CANCELLED, synchronously runs the future's done
callbacks — followed by `cb = self._tasks.pop(fut, None); if cb:
self._invoke_main(cb)`. -/
def SchedState.cancelTask (st : SchedState) (id : Nat) : SchedState :=
  let st₁ :=
    match lookupKey st.futs id with
    | some FutState.pending =>
      SchedState.runHooks { st with futs := setKey st.futs id FutState.cancelled } id
    | _ => st
  match lookupKey st₁.tasks id with
  | some cb => { st₁ with tasks := eraseKey st₁.tasks id, invoked := st₁.invoked ++ [cb] }
  | none => st₁

/-- Model of `LoopInThread.run_background`.  Without a key (or under
`RUN_INDEPENDENT`) this is `_schedule`.  Otherwise, under the per-key lock:
`REJECT_NEW_TASK` with a busy bucket hands back a freshly built degraded
handle; `CANCEL_OLD_TASK` snapshots and clears the bucket; `QUEUE` wraps the
coroutine to first await `bucket[-1]`; then the (possibly wrapped) work is
scheduled, appended to the bucket, and gets the cleanup hook.  After the
lock is released, the snapshotted handles are cancelled via `cancel_task`. -/
def SchedState.runBackground (st : SchedState) (coro : Nat) (key : Option String)
    (strategy : MultipleStrategy) : SchedState × Nat :=
  match key with
  | none => st.schedule (Work.plain coro)
  | some k =>
    if strategy = MultipleStrategy.RUN_INDEPENDENT then
      st.schedule (Work.plain coro)
    else
      let p := st.getBucket k
      let st₁ := p.1
      let bucket := p.2
      if strategy = MultipleStrategy.REJECT_NEW_TASK ∧
          bucket.any (fun f => !(st₁.futOf f).isDone) = true then
        let fid := st₁.nextId
        ({ st₁ with futs := st₁.futs ++ [(fid, degradedHandleState)], nextId := fid + 1 }, fid)
      else
        let snap : List Nat :=
          if strategy = MultipleStrategy.CANCEL_OLD_TASK ∧ bucket ≠ [] then bucket else []
        let st₂ :=
          if strategy = MultipleStrategy.CANCEL_OLD_TASK ∧ bucket ≠ [] then
            { st₁ with keyTasks := setKey st₁.keyTasks k [] }
          else st₁
        let w : Work :=
          if strategy = MultipleStrategy.QUEUE ∧ bucket ≠ [] then
            Work.wrapped (bucket.getLast?.getD 0) coro
          else Work.plain coro
        let q := st₂.schedule w
        let st₃ := q.1
        let fid := q.2
        let bcur := (lookupKey st₃.keyTasks k).getD []
        let st₄ := { st₃ with keyTasks := setKey st₃.keyTasks k (bcur ++ [fid]),
                              hooks := st₃.hooks ++ [(fid, k)] }
        let st₅ := snap.foldl SchedState.cancelTask st₄
        (st₅, fid)

/-- The events of one `run_background` call, in program order, with the
per-key lock acquisition/release made explicit (the `with lock:` block). -/
inductive RBAction where
  | acquireKeyLock (k : String)
  | releaseKeyLock (k : String)
  | snapshotAndClearBucket (k : String) (olds : List Nat)
  | scheduleOnLoop (id : Nat)
  | appendToBucket (k : String) (id : Nat)
  | registerCleanupHook (id : Nat)
  | requestCancel (id : Nat)
deriving DecidableEq

/-- The action trace of `LoopInThread.run_background`, mirroring the
statement order of the source: everything from the strategy dispatch to
`fut.add_done_callback(cleanup)` happens inside `with lock:`; the
`cancel_task` calls on the `CANCEL_OLD_TASK` snapshot happen after the
block exits. -/
def SchedState.runBackgroundActions (st : SchedState) (_coro : Nat) (key : Option String)
    (strategy : MultipleStrategy) : List RBAction :=
  match key with
  | none => [RBAction.scheduleOnLoop st.nextId]
  | some k =>
    if strategy = MultipleStrategy.RUN_INDEPENDENT then
      [RBAction.scheduleOnLoop st.nextId]
    else
      let p := st.getBucket k
      let st₁ := p.1
      let bucket := p.2
      if strategy = MultipleStrategy.REJECT_NEW_TASK ∧
          bucket.any (fun f => !(st₁.futOf f).isDone) = true then
        [RBAction.acquireKeyLock k, RBAction.releaseKeyLock k]
      else
        let snap : List Nat :=
          if strategy = MultipleStrategy.CANCEL_OLD_TASK ∧ bucket ≠ [] then bucket else []
        let mid : List RBAction :=
          if strategy = MultipleStrategy.CANCEL_OLD_TASK ∧ bucket ≠ [] then
            [RBAction.snapshotAndClearBucket k bucket]
          else []
        RBAction.acquireKeyLock k ::
          (mid ++ [RBAction.scheduleOnLoop st₁.nextId,
                   RBAction.appendToBucket k st₁.nextId,
                   RBAction.registerCleanupHook st₁.nextId,
                   RBAction.releaseKeyLock k] ++ snap.map RBAction.requestCancel)

/-- A fresh `LoopInThread` registry (after `__init__`/`_start`), with the
loop-running flag as given. -/
def initState (loopRunning : Bool) : SchedState :=
  { loopRunning := loopRunning, futs := [], scheduled := [], keyTasks := [],
    locks := [], hooks := [], tasks := [], invoked := [], nextId := 0 }

/-- A registry holding one pending keyed task: future 0 is PENDING in bucket
`"k"`, with its cleanup hook registered.  Used as the busy-bucket input for
the `REJECT_NEW_TASK` evaluation. -/
def busyState : SchedState :=
  { loopRunning := true, futs := [(0, FutState.pending)],
    scheduled := [(0, Work.plain 1)], keyTasks := [("k", [0])], locks := ["k"],
    hooks := [(0, "k")], tasks := [], invoked := [], nextId := 1 }

/-- C1: the claim says a scheduling call made while the loop is not running
returns a handle that is already cancelled (`handle.cancelled()` true
immediately).  Evaluating `_schedule` at that failing input shows the code
calls `set_running_or_notify_cancel()` before `cancel()`, so `cancel()` is a
no-op on a RUNNING future: the returned handle is RUNNING, `cancelled()` is
`false`, `done()` is `false`, the handle can never complete (its work is
never submitted to the loop), though indeed no exception is raised. -/
theorem run_background_no_loop_handle_is_running_not_cancelled :
    ((initState false).schedule (Work.plain 7)).1.futOf
        ((initState false).schedule (Work.plain 7)).2 = FutState.running ∧
    (((initState false).schedule (Work.plain 7)).1.futOf
        ((initState false).schedule (Work.plain 7)).2).isCancelled = false ∧
    (((initState false).schedule (Work.plain 7)).1.futOf
        ((initState false).schedule (Work.plain 7)).2).isDone = false ∧
    ((initState false).schedule (Work.plain 7)).1.scheduled = [] ∧
    degradedHandleState = FutState.running := by
  decide

/-- C2: the claim says `run_background` under `REJECT_NEW_TASK` with a busy
bucket returns an already-cancelled handle.  Evaluating at a bucket holding
one pending task shows the same inverted `set_running_or_notify_cancel()` /
`cancel()` pair: the returned handle is RUNNING and `cancelled()` is
`false`.  The remaining conjuncts of the claim do hold at this input: the
new work is never submitted to the loop and the bucket is left unchanged. -/
theorem run_background_reject_new_handle_is_running_not_cancelled :
    (busyState.runBackground 2 (some "k") MultipleStrategy.REJECT_NEW_TASK).1.futOf
        (busyState.runBackground 2 (some "k") MultipleStrategy.REJECT_NEW_TASK).2 =
      FutState.running ∧
    ((busyState.runBackground 2 (some "k") MultipleStrategy.REJECT_NEW_TASK).1.futOf
        (busyState.runBackground 2 (some "k") MultipleStrategy.REJECT_NEW_TASK).2).isCancelled
      = false ∧
    (busyState.runBackground 2 (some "k") MultipleStrategy.REJECT_NEW_TASK).1.scheduled =
      busyState.scheduled ∧
    (busyState.runBackground 2 (some "k") MultipleStrategy.REJECT_NEW_TASK).1.keyTasks =
      busyState.keyTasks := by
  decide

/-! ## The `QUEUE` wrapper and cooperative execution

`run_background` under `QUEUE` wraps the coroutine as

```
async def wrapper():
    try:
        await asyncio.wrap_future(parent)
    except Exception:
        pass
    return await coro
```

Awaiting a terminal future re-raises its exception, or raises
`CancelledError` if it was cancelled.  `except Exception` does not catch
`CancelledError` (a `BaseException` on Python >= 3.8): in that case the
wrapper task itself ends cancelled and `coro` never runs. -/

/-- Terminal outcome of a task/future. -/
inductive Outcome where
  | success (v : Nat)
  | failure (e : PyExn)
  | cancelledOut
deriving DecidableEq

/-- What the wrapper does once its parent future is terminal:
`await asyncio.wrap_future(parent)` inside `try: ... except Exception:
pass`.  A successful parent, or one that failed with an `Exception`
subclass, lets the wrapper proceed to `await coro`; a cancelled parent (or
one carrying `CancelledError`) raises `CancelledError` out of the wrapper,
so the wrapper task ends cancelled without running its body. -/
def wrapperAwaitParent : Outcome → Bool
  | .success _ => true
  | .failure e => e.isExceptionSubclass
  | .cancelledOut => false

/-- Phases of one cooperatively scheduled task. -/
inductive TaskPhase where
  | notStarted
  | awaitingParent
  | bodyRunning
  | finished (o : Outcome)
deriving DecidableEq

def TaskPhase.isTerminal : TaskPhase → Bool
  | .finished _ => true
  | _ => false

/-- One cooperative task: the parent handle its wrapper awaits (none for an
unwrapped coroutine) and its current phase. -/
structure QTask where
  parentId : Option Nat
  phase : TaskPhase
deriving DecidableEq

/-- A system of cooperative tasks on the single worker loop, indexed by
handle id. -/
def QSys : Type := Nat → QTask

def QSys.setPhase (s : QSys) (i : Nat) (p : TaskPhase) : QSys :=
  fun j => if j = i then { s i with phase := p } else s j

/-- Small-step semantics of the worker loop.  The loop never preempts: a
task moves only at its own await points.  A wrapped task first suspends on
its parent; it may leave that suspension only once the parent is terminal,
proceeding to its body exactly when `wrapperAwaitParent` lets the exception
be swallowed (or there is none).  Cooperative cancellation may take effect
at any suspension point. -/
inductive QStep : QSys → QSys → Prop where
  | startPlain (s : QSys) (i : Nat) :
      (s i).parentId = none → (s i).phase = TaskPhase.notStarted →
      QStep s (s.setPhase i TaskPhase.bodyRunning)
  | startWrapped (s : QSys) (i p : Nat) :
      (s i).parentId = some p → (s i).phase = TaskPhase.notStarted →
      QStep s (s.setPhase i TaskPhase.awaitingParent)
  | resumeBody (s : QSys) (i p : Nat) (o : Outcome) :
      (s i).parentId = some p → (s i).phase = TaskPhase.awaitingParent →
      (s p).phase = TaskPhase.finished o → wrapperAwaitParent o = true →
      QStep s (s.setPhase i TaskPhase.bodyRunning)
  | parentRaises (s : QSys) (i p : Nat) (o : Outcome) :
      (s i).parentId = some p → (s i).phase = TaskPhase.awaitingParent →
      (s p).phase = TaskPhase.finished o → wrapperAwaitParent o = false →
      QStep s (s.setPhase i (TaskPhase.finished Outcome.cancelledOut))
  | finishBody (s : QSys) (i : Nat) (o : Outcome) :
      (s i).phase = TaskPhase.bodyRunning →
      QStep s (s.setPhase i (TaskPhase.finished o))
  | cancelBeforeStart (s : QSys) (i : Nat) :
      (s i).phase = TaskPhase.notStarted →
      QStep s (s.setPhase i (TaskPhase.finished Outcome.cancelledOut))
  | cancelWhileAwaiting (s : QSys) (i : Nat) :
      (s i).phase = TaskPhase.awaitingParent →
      QStep s (s.setPhase i (TaskPhase.finished Outcome.cancelledOut))

/-- Reachability under the cooperative small-step semantics. -/
def QReach : QSys → QSys → Prop := Relation.ReflTransGen QStep

theorem QStep.parentId_eq {s s' : QSys} (h : QStep s s') (j : Nat) :
    (s' j).parentId = (s j).parentId := by
  cases h with
  | startPlain i h₁ h₂ => by_cases hj : j = i <;> simp [QSys.setPhase, hj]
  | startWrapped i p h₁ h₂ => by_cases hj : j = i <;> simp [QSys.setPhase, hj]
  | resumeBody i p o h₁ h₂ h₃ h₄ => by_cases hj : j = i <;> simp [QSys.setPhase, hj]
  | parentRaises i p o h₁ h₂ h₃ h₄ => by_cases hj : j = i <;> simp [QSys.setPhase, hj]
  | finishBody i o h₁ => by_cases hj : j = i <;> simp [QSys.setPhase, hj]
  | cancelBeforeStart i h₁ => by_cases hj : j = i <;> simp [QSys.setPhase, hj]
  | cancelWhileAwaiting i h₁ => by_cases hj : j = i <;> simp [QSys.setPhase, hj]

theorem QStep.terminal_persists {s s' : QSys} (h : QStep s s') (j : Nat) {o : Outcome}
    (hj : (s j).phase = TaskPhase.finished o) : (s' j).phase = TaskPhase.finished o := by
  cases h with
  | startPlain i h₁ h₂ =>
    by_cases hij : j = i
    · subst hij; rw [hj] at h₂; cases h₂
    · simpa [QSys.setPhase, hij] using hj
  | startWrapped i p h₁ h₂ =>
    by_cases hij : j = i
    · subst hij; rw [hj] at h₂; cases h₂
    · simpa [QSys.setPhase, hij] using hj
  | resumeBody i p o' h₁ h₂ h₃ h₄ =>
    by_cases hij : j = i
    · subst hij; rw [hj] at h₂; cases h₂
    · simpa [QSys.setPhase, hij] using hj
  | parentRaises i p o' h₁ h₂ h₃ h₄ =>
    by_cases hij : j = i
    · subst hij; rw [hj] at h₂; cases h₂
    · simpa [QSys.setPhase, hij] using hj
  | finishBody i o' h₁ =>
    by_cases hij : j = i
    · subst hij; rw [hj] at h₁; cases h₁
    · simpa [QSys.setPhase, hij] using hj
  | cancelBeforeStart i h₁ =>
    by_cases hij : j = i
    · subst hij; rw [hj] at h₁; cases h₁
    · simpa [QSys.setPhase, hij] using hj
  | cancelWhileAwaiting i h₁ =>
    by_cases hij : j = i
    · subst hij; rw [hj] at h₁; cases h₁
    · simpa [QSys.setPhase, hij] using hj

/-- The chain invariant for a successor task `i2` wrapped on parent `i1`:
the parent pointer is stable, and whenever the successor's body is running
the parent is terminal. -/
def chainInv (i1 i2 : Nat) (s : QSys) : Prop :=
  (s i2).parentId = some i1 ∧
  ((s i2).phase = TaskPhase.bodyRunning → ((s i1).phase).isTerminal = true)

theorem chainInv_step {i1 i2 : Nat} (hne : i1 ≠ i2) {s s' : QSys}
    (hstep : QStep s s') (hinv : chainInv i1 i2 s) : chainInv i1 i2 s' := by
  obtain ⟨hpar, hbody⟩ := hinv
  refine ⟨by rw [hstep.parentId_eq i2]; exact hpar, ?_⟩
  intro hrun
  cases hstep with
  | startPlain i h₁ h₂ =>
    by_cases hij : i2 = i
    · subst hij; rw [hpar] at h₁; cases h₁
    · simp only [QSys.setPhase, if_neg hij] at hrun
      have h1 : ((s i1).phase).isTerminal = true := hbody hrun
      by_cases hi1 : i1 = i
      · subst hi1; rw [h₂] at h1; cases h1
      · simpa [QSys.setPhase, hi1] using h1
  | startWrapped i p h₁ h₂ =>
    by_cases hij : i2 = i
    · subst hij
      simp only [QSys.setPhase, if_pos rfl] at hrun
      cases hrun
    · simp only [QSys.setPhase, if_neg hij] at hrun
      have h1 : ((s i1).phase).isTerminal = true := hbody hrun
      by_cases hi1 : i1 = i
      · subst hi1; rw [h₂] at h1; cases h1
      · simpa [QSys.setPhase, hi1] using h1
  | resumeBody i p o h₁ h₂ h₃ h₄ =>
    by_cases hij : i2 = i
    · have hp : p = i1 := by
        rw [hij] at hpar
        rw [h₁] at hpar
        exact Option.some_inj.mp hpar
      by_cases hpi : i1 = i
      · exact absurd (hpi.trans hij.symm) hne
      · have h₃' : (s i1).phase = TaskPhase.finished o := by rw [← hp]; exact h₃
        simp [QSys.setPhase, hpi, h₃', TaskPhase.isTerminal]
    · simp only [QSys.setPhase, if_neg hij] at hrun
      have h1 : ((s i1).phase).isTerminal = true := hbody hrun
      by_cases hi1 : i1 = i
      · subst hi1; rw [h₂] at h1; cases h1
      · simpa [QSys.setPhase, hi1] using h1
  | parentRaises i p o h₁ h₂ h₃ h₄ =>
    by_cases hij : i2 = i
    · subst hij
      simp only [QSys.setPhase, if_pos rfl] at hrun
      cases hrun
    · simp only [QSys.setPhase, if_neg hij] at hrun
      have h1 : ((s i1).phase).isTerminal = true := hbody hrun
      by_cases hi1 : i1 = i
      · subst hi1; rw [h₂] at h1; cases h1
      · simpa [QSys.setPhase, hi1] using h1
  | finishBody i o h₁ =>
    by_cases hij : i2 = i
    · subst hij
      simp only [QSys.setPhase, if_pos rfl] at hrun
      cases hrun
    · simp only [QSys.setPhase, if_neg hij] at hrun
      have h1 : ((s i1).phase).isTerminal = true := hbody hrun
      by_cases hi1 : i1 = i
      · subst hi1; rw [h₁] at h1; cases h1
      · simpa [QSys.setPhase, hi1] using h1
  | cancelBeforeStart i h₁ =>
    by_cases hij : i2 = i
    · subst hij
      simp only [QSys.setPhase, if_pos rfl] at hrun
      cases hrun
    · simp only [QSys.setPhase, if_neg hij] at hrun
      have h1 : ((s i1).phase).isTerminal = true := hbody hrun
      by_cases hi1 : i1 = i
      · subst hi1; rw [h₁] at h1; cases h1
      · simpa [QSys.setPhase, hi1] using h1
  | cancelWhileAwaiting i h₁ =>
    by_cases hij : i2 = i
    · subst hij
      simp only [QSys.setPhase, if_pos rfl] at hrun
      cases hrun
    · simp only [QSys.setPhase, if_neg hij] at hrun
      have h1 : ((s i1).phase).isTerminal = true := hbody hrun
      by_cases hi1 : i1 = i
      · subst hi1; rw [h₁] at h1; cases h1
      · simpa [QSys.setPhase, hi1] using h1

theorem chainInv_reach {i1 i2 : Nat} (hne : i1 ≠ i2) {s s' : QSys}
    (hreach : QReach s s') (hinv : chainInv i1 i2 s) : chainInv i1 i2 s' := by
  induction hreach with
  | refl => exact hinv
  | tail _ hstep ih => exact chainInv_step hne hstep ih

/-- A task awaiting a cancelled parent can never step into its body: the
`CancelledError` raised by `await asyncio.wrap_future(parent)` is not
caught by `except Exception`. -/
theorem no_body_step_from_cancelled_parent (s : QSys) (i p : Nat)
    (hpar : (s i).parentId = some p) (hph : (s i).phase = TaskPhase.awaitingParent)
    (hp : (s p).phase = TaskPhase.finished Outcome.cancelledOut)
    (s' : QSys) (hstep : QStep s s') : (s' i).phase ≠ TaskPhase.bodyRunning := by
  intro hrun
  cases hstep with
  | startPlain j h₁ h₂ =>
    by_cases hij : i = j
    · rw [← hij] at h₂; rw [hph] at h₂; cases h₂
    · simp only [QSys.setPhase, if_neg hij] at hrun
      rw [hph] at hrun; cases hrun
  | startWrapped j q h₁ h₂ =>
    by_cases hij : i = j
    · simp only [QSys.setPhase, if_pos hij] at hrun
      cases hrun
    · simp only [QSys.setPhase, if_neg hij] at hrun
      rw [hph] at hrun; cases hrun
  | resumeBody j q o h₁ h₂ h₃ h₄ =>
    by_cases hij : i = j
    · have hq : q = p := by
        rw [← hij] at h₁
        rw [hpar] at h₁
        exact (Option.some_inj.mp h₁).symm
      rw [hq] at h₃
      rw [hp] at h₃
      have ho : o = Outcome.cancelledOut := by
        injection h₃.symm
      rw [ho] at h₄
      simp [wrapperAwaitParent] at h₄
    · simp only [QSys.setPhase, if_neg hij] at hrun
      rw [hph] at hrun; cases hrun
  | parentRaises j q o h₁ h₂ h₃ h₄ =>
    by_cases hij : i = j
    · simp only [QSys.setPhase, if_pos hij] at hrun
      cases hrun
    · simp only [QSys.setPhase, if_neg hij] at hrun
      rw [hph] at hrun; cases hrun
  | finishBody j o h₁ =>
    by_cases hij : i = j
    · rw [← hij] at h₁; rw [hph] at h₁; cases h₁
    · simp only [QSys.setPhase, if_neg hij] at hrun
      rw [hph] at hrun; cases hrun
  | cancelBeforeStart j h₁ =>
    by_cases hij : i = j
    · rw [← hij] at h₁; rw [hph] at h₁; cases h₁
    · simp only [QSys.setPhase, if_neg hij] at hrun
      rw [hph] at hrun; cases hrun
  | cancelWhileAwaiting j h₁ =>
    by_cases hij : i = j
    · simp only [QSys.setPhase, if_pos hij] at hrun
      cases hrun
    · simp only [QSys.setPhase, if_neg hij] at hrun
      rw [hph] at hrun; cases hrun

/-- C3 counterexample: the claim says the `QUEUE` wrapper swallows any
failure or cancellation of the predecessor, so the successor's body always
runs.  But `except Exception` does not catch `CancelledError`: for a
cancelled predecessor the wrapper does not proceed to its body. -/
theorem queue_wrapper_does_not_swallow_cancellation :
    wrapperAwaitParent Outcome.cancelledOut = false ∧
    wrapperAwaitParent (Outcome.failure PyExn.cancelledError) = false := by
  decide

/-- C3 (amended): the `QUEUE` wrapper swallows a predecessor failure only
when the raised exception is an `Exception` subclass (and proceeds after a
successful predecessor); a cancelled predecessor raises `CancelledError`
through the wrapper, so the successor never steps into its body and instead
ends cancelled itself. -/
theorem queue_wrapper_swallows_only_exception_failures :
    (∀ v, wrapperAwaitParent (Outcome.success v) = true) ∧
    (∀ e, e.isExceptionSubclass = true → wrapperAwaitParent (Outcome.failure e) = true) ∧
    wrapperAwaitParent Outcome.cancelledOut = false ∧
    (∀ (s : QSys) (i p : Nat),
       (s i).parentId = some p →
       (s i).phase = TaskPhase.awaitingParent →
       (s p).phase = TaskPhase.finished Outcome.cancelledOut →
       ∀ s', QStep s s' → (s' i).phase ≠ TaskPhase.bodyRunning) := by
  refine ⟨fun v => rfl, fun e he => ?_, rfl, ?_⟩
  · simp [wrapperAwaitParent, he]
  · intro s i p hpar hph hp s' hstep
    exact no_body_step_from_cancelled_parent s i p hpar hph hp s' hstep

/-- Two-task system used as a concrete witness input: handle 0 is a plain
task running its body; handle 1 is `QUEUE`-wrapped on parent 0 and not yet
started. -/
def qsInit : QSys := fun j =>
  if j = 0 then { parentId := none, phase := TaskPhase.bodyRunning }
  else { parentId := some 0, phase := TaskPhase.notStarted }

def qs1 : QSys := qsInit.setPhase 0 (TaskPhase.finished (Outcome.success 5))

def qs2 : QSys := qs1.setPhase 1 TaskPhase.awaitingParent

def qs3 : QSys := qs2.setPhase 1 TaskPhase.bodyRunning

theorem qsReach : QReach qsInit qs3 := by
  have h1 : QStep qsInit qs1 := QStep.finishBody qsInit 0 (Outcome.success 5) rfl
  have h2 : QStep qs1 qs2 := QStep.startWrapped qs1 1 0 rfl rfl
  have h3 : QStep qs2 qs3 :=
    QStep.resumeBody qs2 1 0 (Outcome.success 5) rfl rfl rfl rfl
  exact Relation.ReflTransGen.tail
    (Relation.ReflTransGen.tail (Relation.ReflTransGen.single h1) h2) h3

/-- A system with handle 1 awaiting a cancelled parent, for the C3
witness. -/
def qsCancelled : QSys := fun j =>
  if j = 0 then { parentId := none, phase := TaskPhase.finished Outcome.cancelledOut }
  else { parentId := some 0, phase := TaskPhase.awaitingParent }

/-- Witness for the amended C3 theorem at concrete inputs: an `Exception`
failure of the predecessor is swallowed, and from a concrete state with a
cancelled parent the concrete `parentRaises` step does not run the body. -/
theorem queue_wrapper_swallows_only_exception_failures_witness :
    PyExn.isExceptionSubclass (PyExn.exception 3) = true ∧
    wrapperAwaitParent (Outcome.failure (PyExn.exception 3)) = true ∧
    (qsCancelled 1).parentId = some 0 ∧
    (qsCancelled 1).phase = TaskPhase.awaitingParent ∧
    (qsCancelled 0).phase = TaskPhase.finished Outcome.cancelledOut ∧
    ((qsCancelled.setPhase 1 (TaskPhase.finished Outcome.cancelledOut)) 1).phase ≠
      TaskPhase.bodyRunning := by
  refine ⟨by decide, queue_wrapper_swallows_only_exception_failures.2.1 _ (by decide),
    rfl, rfl, rfl, ?_⟩
  exact queue_wrapper_swallows_only_exception_failures.2.2.2 qsCancelled 1 0 rfl rfl rfl _
    (QStep.parentRaises qsCancelled 1 0 Outcome.cancelledOut rfl rfl rfl rfl)

/-- C4: under `QUEUE`, the new work is wrapped on exactly the bucket's
most-recently-added handle (`bucket[-1]`) — the scheduled entry is
`Work.wrapped p coro` where `p` is the last bucket element, mentioning no
other bucket member — and in the cooperative small-step semantics a wrapped
task's body never runs before its parent is terminal. -/
theorem queue_chains_on_single_predecessor_and_orders_bodies :
    (∀ (st : SchedState) (coro : Nat) (k : String) (bs : List Nat) (p : Nat),
       st.loopRunning = true →
       lookupKey st.keyTasks k = some (bs ++ [p]) →
       (st.runBackground coro (some k) MultipleStrategy.QUEUE).1.scheduled =
         st.scheduled ++ [(st.nextId, Work.wrapped p coro)] ∧
       (st.runBackground coro (some k) MultipleStrategy.QUEUE).2 = st.nextId) ∧
    (∀ (s₀ s : QSys) (i1 i2 : Nat),
       i1 ≠ i2 →
       (s₀ i2).parentId = some i1 →
       (s₀ i2).phase = TaskPhase.notStarted →
       QReach s₀ s →
       (s i2).phase = TaskPhase.bodyRunning →
       ((s i1).phase).isTerminal = true) := by
  constructor
  · intro st coro k bs p hloop hbucket
    simp [SchedState.runBackground, SchedState.getBucket, SchedState.schedule,
      hbucket, hloop]
  · intro s₀ s i1 i2 hne hpar hph hreach hrun
    have hinv : chainInv i1 i2 s₀ := by
      refine ⟨hpar, fun hr => ?_⟩
      rw [hph] at hr
      cases hr
    exact (chainInv_reach hne hreach hinv).2 hrun

/-- Witness for C4 at concrete inputs: scheduling under `QUEUE` on the
one-task bucket of `busyState` chains on handle 0, and in the concrete
run `qsInit` to `qs3` task 1's body runs only with task 0 terminal. -/
theorem queue_chains_on_single_predecessor_and_orders_bodies_witness :
    busyState.loopRunning = true ∧
    lookupKey busyState.keyTasks "k" = some ([] ++ [0]) ∧
    (busyState.runBackground 2 (some "k") MultipleStrategy.QUEUE).1.scheduled =
      busyState.scheduled ++ [(1, Work.wrapped 0 2)] ∧
    (qsInit 1).parentId = some 0 ∧
    (qsInit 1).phase = TaskPhase.notStarted ∧
    (qs3 1).phase = TaskPhase.bodyRunning ∧
    ((qs3 0).phase).isTerminal = true := by
  refine ⟨rfl, by decide, ?_, rfl, rfl, rfl, ?_⟩
  · exact (queue_chains_on_single_predecessor_and_orders_bodies.1 busyState 2 "k"
      [] 0 rfl (by decide)).1
  · exact queue_chains_on_single_predecessor_and_orders_bodies.2 qsInit qs3 0 1
      (by decide) rfl rfl qsReach rfl

/-! ## Facts about `cancel_task` and the `CANCEL_OLD_TASK` eviction -/

theorem lookupKey_some_mem {α β : Type} [DecidableEq α]
    {l : List (α × β)} {k : α} {v : β} (h : lookupKey l k = some v) : (k, v) ∈ l := by
  induction l with
  | nil => simp [lookupKey] at h
  | cons hd tl ih =>
    obtain ⟨k₀, w⟩ := hd
    by_cases h₀ : k₀ = k
    · subst h₀
      simp only [lookupKey, if_pos rfl] at h
      simp [Option.some_inj.mp h]
    · simp only [lookupKey, if_neg h₀] at h
      exact List.mem_cons_of_mem _ (ih h)

theorem cleanup_keyTasks_lookup (st : SchedState) (k' : String) (j : Nat)
    (k : String) (fid : Nat) (h : lookupKey st.keyTasks k = some [fid]) (hne : j ≠ fid) :
    lookupKey (st.cleanup k' j).keyTasks k = some [fid] := by
  unfold SchedState.cleanup
  by_cases hk : k' = k
  · subst hk
    rw [h]
    have herase : ([fid].erase j) = [fid] := by
      simp [List.erase_cons, Ne.symm hne]
    simp only [Option.getD_some, herase]
    simp [lookupKey_setKey_self]
  · by_cases hb : (((lookupKey st.keyTasks k').getD []).erase j) = []
    · simp only [if_pos hb]
      rw [lookupKey_eraseKey_ne st.keyTasks k' k (fun hc => hk hc.symm)]
      exact h
    · simp only [if_neg hb]
      rw [lookupKey_setKey_ne st.keyTasks k' k _ (fun hc => hk hc.symm)]
      exact h

theorem cleanup_futs (st : SchedState) (k' : String) (j : Nat) :
    (st.cleanup k' j).futs = st.futs := by
  unfold SchedState.cleanup
  by_cases hb : (((lookupKey st.keyTasks k').getD []).erase j) = [] <;> simp [hb]

theorem cleanup_nextId (st : SchedState) (k' : String) (j : Nat) :
    (st.cleanup k' j).nextId = st.nextId := by
  unfold SchedState.cleanup
  by_cases hb : (((lookupKey st.keyTasks k').getD []).erase j) = [] <;> simp [hb]

theorem cleanup_scheduled (st : SchedState) (k' : String) (j : Nat) :
    (st.cleanup k' j).scheduled = st.scheduled := by
  unfold SchedState.cleanup
  by_cases hb : (((lookupKey st.keyTasks k').getD []).erase j) = [] <;> simp [hb]

theorem runHooks_keyTasks_lookup (st : SchedState) (j : Nat)
    (k : String) (fid : Nat) (h : lookupKey st.keyTasks k = some [fid]) (hne : j ≠ fid) :
    lookupKey (st.runHooks j).keyTasks k = some [fid] := by
  unfold SchedState.runHooks
  cases lookupKey st.hooks j with
  | none => exact h
  | some k' => exact cleanup_keyTasks_lookup st k' j k fid h hne

theorem runHooks_futs (st : SchedState) (j : Nat) : (st.runHooks j).futs = st.futs := by
  unfold SchedState.runHooks
  cases lookupKey st.hooks j with
  | none => rfl
  | some k' => exact cleanup_futs st k' j

theorem runHooks_nextId (st : SchedState) (j : Nat) :
    (st.runHooks j).nextId = st.nextId := by
  unfold SchedState.runHooks
  cases lookupKey st.hooks j with
  | none => rfl
  | some k' => exact cleanup_nextId st k' j

theorem runHooks_scheduled (st : SchedState) (j : Nat) :
    (st.runHooks j).scheduled = st.scheduled := by
  unfold SchedState.runHooks
  cases lookupKey st.hooks j with
  | none => rfl
  | some k' => exact cleanup_scheduled st k' j

theorem cancelTask_keyTasks_lookup (st : SchedState) (j : Nat)
    (k : String) (fid : Nat) (h : lookupKey st.keyTasks k = some [fid]) (hne : j ≠ fid) :
    lookupKey (st.cancelTask j).keyTasks k = some [fid] := by
  unfold SchedState.cancelTask
  have h₁ : ∀ st₁ : SchedState, lookupKey st₁.keyTasks k = some [fid] →
      lookupKey
        (match lookupKey st₁.tasks j with
         | some cb => { st₁ with tasks := eraseKey st₁.tasks j,
                                 invoked := st₁.invoked ++ [cb] }
         | none => st₁).keyTasks k = some [fid] := by
    intro st₁ h₁
    cases lookupKey st₁.tasks j with
    | none => exact h₁
    | some cb => exact h₁
  cases hf : lookupKey st.futs j with
  | none => exact h₁ _ h
  | some fs =>
    cases fs with
    | pending =>
      exact h₁ _ (runHooks_keyTasks_lookup _ j k fid h hne)
    | running => exact h₁ _ h
    | cancelled => exact h₁ _ h
    | cancelledNotified => exact h₁ _ h
    | finishedOk v => exact h₁ _ h
    | finishedErr e => exact h₁ _ h

theorem cancelTask_futs_other (st : SchedState) (j o : Nat) (hne : o ≠ j) :
    lookupKey (st.cancelTask j).futs o = lookupKey st.futs o := by
  unfold SchedState.cancelTask
  have h₁ : ∀ st₁ : SchedState,
      (match lookupKey st₁.tasks j with
       | some cb => { st₁ with tasks := eraseKey st₁.tasks j,
                               invoked := st₁.invoked ++ [cb] }
       | none => st₁).futs = st₁.futs := by
    intro st₁
    cases lookupKey st₁.tasks j with
    | none => rfl
    | some cb => rfl
  cases hf : lookupKey st.futs j with
  | none => rw [h₁]
  | some fs =>
    cases fs with
    | pending =>
      rw [h₁, runHooks_futs]
      exact lookupKey_setKey_ne st.futs j o _ hne
    | running => rw [h₁]
    | cancelled => rw [h₁]
    | cancelledNotified => rw [h₁]
    | finishedOk v => rw [h₁]
    | finishedErr e => rw [h₁]

theorem cancelTask_futs_self (st : SchedState) (j : Nat) (fs : FutState)
    (h : lookupKey st.futs j = some fs) :
    lookupKey (st.cancelTask j).futs j =
      some (if fs = FutState.pending then FutState.cancelled else fs) := by
  unfold SchedState.cancelTask
  have h₁ : ∀ st₁ : SchedState,
      (match lookupKey st₁.tasks j with
       | some cb => { st₁ with tasks := eraseKey st₁.tasks j,
                               invoked := st₁.invoked ++ [cb] }
       | none => st₁).futs = st₁.futs := by
    intro st₁
    cases lookupKey st₁.tasks j with
    | none => rfl
    | some cb => rfl
  rw [h]
  cases fs with
  | pending =>
    rw [h₁, runHooks_futs]
    simp [lookupKey_setKey_self]
  | running => rw [h₁]; simp [h]
  | cancelled => rw [h₁]; simp [h]
  | cancelledNotified => rw [h₁]; simp [h]
  | finishedOk v => rw [h₁]; simp [h]
  | finishedErr e => rw [h₁]; simp [h]

theorem cancelTask_nextId (st : SchedState) (j : Nat) :
    (st.cancelTask j).nextId = st.nextId := by
  unfold SchedState.cancelTask
  have h₁ : ∀ st₁ : SchedState,
      (match lookupKey st₁.tasks j with
       | some cb => { st₁ with tasks := eraseKey st₁.tasks j,
                               invoked := st₁.invoked ++ [cb] }
       | none => st₁).nextId = st₁.nextId := by
    intro st₁
    cases lookupKey st₁.tasks j with
    | none => rfl
    | some cb => rfl
  cases hf : lookupKey st.futs j with
  | none => rw [h₁]
  | some fs =>
    cases fs with
    | pending => rw [h₁, runHooks_nextId]
    | running => rw [h₁]
    | cancelled => rw [h₁]
    | cancelledNotified => rw [h₁]
    | finishedOk v => rw [h₁]
    | finishedErr e => rw [h₁]

theorem cancelTask_scheduled (st : SchedState) (j : Nat) :
    (st.cancelTask j).scheduled = st.scheduled := by
  unfold SchedState.cancelTask
  have h₁ : ∀ st₁ : SchedState,
      (match lookupKey st₁.tasks j with
       | some cb => { st₁ with tasks := eraseKey st₁.tasks j,
                               invoked := st₁.invoked ++ [cb] }
       | none => st₁).scheduled = st₁.scheduled := by
    intro st₁
    cases lookupKey st₁.tasks j with
    | none => rfl
    | some cb => rfl
  cases hf : lookupKey st.futs j with
  | none => rw [h₁]
  | some fs =>
    cases fs with
    | pending => rw [h₁, runHooks_scheduled]
    | running => rw [h₁]
    | cancelled => rw [h₁]
    | cancelledNotified => rw [h₁]
    | finishedOk v => rw [h₁]
    | finishedErr e => rw [h₁]

theorem foldl_cancelTask_keyTasks_lookup (olds : List Nat) (st : SchedState)
    (k : String) (fid : Nat) (h : lookupKey st.keyTasks k = some [fid])
    (hne : ∀ o ∈ olds, o ≠ fid) :
    lookupKey (olds.foldl SchedState.cancelTask st).keyTasks k = some [fid] := by
  induction olds generalizing st with
  | nil => exact h
  | cons a rest ih =>
    simp only [List.foldl_cons]
    exact ih _ (cancelTask_keyTasks_lookup st a k fid h (hne a (by simp)))
      (fun o ho => hne o (by simp [ho]))

theorem foldl_cancelTask_done_persists (rest : List Nat) (st : SchedState) (o : Nat)
    (fs : FutState) (h : lookupKey st.futs o = some fs) (hd : fs.isDone = true) :
    lookupKey (rest.foldl SchedState.cancelTask st).futs o = some fs := by
  induction rest generalizing st with
  | nil => exact h
  | cons b rs ih =>
    simp only [List.foldl_cons]
    refine ih _ ?_
    by_cases hob : o = b
    · subst hob
      rw [cancelTask_futs_self st o fs h]
      have hnp : ¬ fs = FutState.pending := by
        intro hc
        rw [hc] at hd
        cases hd
      simp [hnp]
    · rw [cancelTask_futs_other st b o hob]
      exact h

theorem foldl_cancelTask_final (olds : List Nat) (st : SchedState) :
    ∀ o ∈ olds, ∀ fs, lookupKey st.futs o = some fs →
      (fs = FutState.pending ∨ fs.isDone = true) →
      lookupKey (olds.foldl SchedState.cancelTask st).futs o =
        some (if fs = FutState.pending then FutState.cancelled else fs) := by
  induction olds generalizing st with
  | nil => intro o ho; simp at ho
  | cons a rest ih =>
    intro o ho fs hl hp
    simp only [List.foldl_cons]
    by_cases hoa : o = a
    · subst hoa
      have hself := cancelTask_futs_self st o fs hl
      have hdone : (if fs = FutState.pending then FutState.cancelled else fs).isDone
          = true := by
        by_cases hps : fs = FutState.pending
        · simp [hps, FutState.isDone]
        · rcases hp with hp | hp
          · exact absurd hp hps
          · simp [hps, hp]
      exact foldl_cancelTask_done_persists rest _ o _ hself hdone
    · rcases List.mem_cons.mp ho with ho' | ho'
      · exact absurd ho' hoa
      · refine ih _ o ho' fs ?_ hp
        rw [cancelTask_futs_other st a o hoa]
        exact hl

/-- No bucket in the `_key_tasks` map mentions handle `o`. -/
def noBucketMember (kt : List (String × List Nat)) (o : Nat) : Prop :=
  ∀ p ∈ kt, o ∉ p.2

theorem noBucketMember_cleanup (st : SchedState) (k' : String) (j o : Nat)
    (h : noBucketMember st.keyTasks o) : noBucketMember (st.cleanup k' j).keyTasks o := by
  unfold SchedState.cleanup
  by_cases hb : (((lookupKey st.keyTasks k').getD []).erase j) = []
  · simp only [if_pos hb]
    intro p hp
    exact h p (mem_eraseKey hp)
  · simp only [if_neg hb]
    intro p hp
    rcases mem_setKey hp with h' | h'
    · exact h p h'
    · rw [h']
      intro ho
      have hob : o ∈ ((lookupKey st.keyTasks k').getD []) := List.mem_of_mem_erase ho
      cases hl : lookupKey st.keyTasks k' with
      | none => rw [hl] at hob; simp at hob
      | some b =>
        rw [hl] at hob
        simp only [Option.getD_some] at hob
        exact h (k', b) (lookupKey_some_mem hl) hob

theorem noBucketMember_runHooks (st : SchedState) (j o : Nat)
    (h : noBucketMember st.keyTasks o) : noBucketMember (st.runHooks j).keyTasks o := by
  unfold SchedState.runHooks
  cases lookupKey st.hooks j with
  | none => exact h
  | some k' => exact noBucketMember_cleanup st k' j o h

theorem noBucketMember_cancelTask (st : SchedState) (j o : Nat)
    (h : noBucketMember st.keyTasks o) : noBucketMember (st.cancelTask j).keyTasks o := by
  unfold SchedState.cancelTask
  have h₁ : ∀ st₁ : SchedState, noBucketMember st₁.keyTasks o →
      noBucketMember
        (match lookupKey st₁.tasks j with
         | some cb => { st₁ with tasks := eraseKey st₁.tasks j,
                                 invoked := st₁.invoked ++ [cb] }
         | none => st₁).keyTasks o := by
    intro st₁ h₁
    cases lookupKey st₁.tasks j with
    | none => exact h₁
    | some cb => exact h₁
  cases hf : lookupKey st.futs j with
  | none => exact h₁ _ h
  | some fs =>
    cases fs with
    | pending => exact h₁ _ (noBucketMember_runHooks _ j o h)
    | running => exact h₁ _ h
    | cancelled => exact h₁ _ h
    | cancelledNotified => exact h₁ _ h
    | finishedOk v => exact h₁ _ h
    | finishedErr e => exact h₁ _ h

theorem noBucketMember_foldl_cancelTask (olds : List Nat) (st : SchedState) (o : Nat)
    (h : noBucketMember st.keyTasks o) :
    noBucketMember ((olds.foldl SchedState.cancelTask st)).keyTasks o := by
  induction olds generalizing st with
  | nil => exact h
  | cons a rest ih =>
    simp only [List.foldl_cons]
    exact ih _ (noBucketMember_cancelTask st a o h)

theorem lookupKey_append_left {α β : Type} [DecidableEq α]
    {l₁ l₂ : List (α × β)} {k : α} {v : β} (h : lookupKey l₁ k = some v) :
    lookupKey (l₁ ++ l₂) k = some v := by
  induction l₁ with
  | nil => simp [lookupKey] at h
  | cons hd tl ih =>
    obtain ⟨k₀, w⟩ := hd
    by_cases h₀ : k₀ = k
    · simp only [lookupKey, if_pos h₀] at h
      simp only [List.cons_append, lookupKey, if_pos h₀]
      exact h
    · simp only [lookupKey, if_neg h₀] at h
      simp only [List.cons_append, lookupKey, if_neg h₀]
      exact ih h

/-- Symbolic evaluation of `run_background` under `CANCEL_OLD_TASK` with a
non-empty bucket and a running loop: the bucket is cleared and replaced by
the fresh handle, the new work is scheduled unwrapped, the cleanup hook is
registered, and `cancel_task` is folded over the snapshot afterwards. -/
theorem runBackground_cancel_old_shape (st : SchedState) (coro : Nat) (k : String)
    (olds : List Nat) (hbucket : lookupKey st.keyTasks k = some olds) (hne : olds ≠ [])
    (hloop : st.loopRunning = true) :
    st.runBackground coro (some k) MultipleStrategy.CANCEL_OLD_TASK =
      (olds.foldl SchedState.cancelTask
        { st with
          loopRunning := st.loopRunning,
          futs := st.futs ++ [(st.nextId, FutState.pending)],
          scheduled := st.scheduled ++ [(st.nextId, Work.plain coro)],
          keyTasks := setKey (setKey st.keyTasks k []) k [st.nextId],
          locks := if k ∈ st.locks then st.locks else st.locks ++ [k],
          hooks := st.hooks ++ [(st.nextId, k)],
          nextId := st.nextId + 1 }, st.nextId) := by
  simp [SchedState.runBackground, SchedState.getBucket, SchedState.schedule,
    hbucket, hne, hloop, lookupKey_setKey_self]

theorem schedule_keyTasks (st : SchedState) (w : Work) :
    (st.schedule w).1.keyTasks = st.keyTasks := by
  unfold SchedState.schedule
  by_cases hl : st.loopRunning <;> simp [hl]

theorem schedule_nextId (st : SchedState) (w : Work) :
    (st.schedule w).1.nextId = st.nextId + 1 := by
  unfold SchedState.schedule
  by_cases hl : st.loopRunning <;> simp [hl]

theorem schedule_fid (st : SchedState) (w : Work) :
    (st.schedule w).2 = st.nextId := by
  unfold SchedState.schedule
  by_cases hl : st.loopRunning <;> simp [hl]

theorem getBucket_keyTasks_cases (st : SchedState) (k : String) :
    (st.getBucket k).1.keyTasks = st.keyTasks ∨
    (st.getBucket k).1.keyTasks = st.keyTasks ++ [(k, [])] := by
  unfold SchedState.getBucket
  cases lookupKey st.keyTasks k <;> simp

theorem getBucket_nextId (st : SchedState) (k : String) :
    (st.getBucket k).1.nextId = st.nextId := rfl

theorem getBucket_loopRunning (st : SchedState) (k : String) :
    (st.getBucket k).1.loopRunning = st.loopRunning := rfl

theorem getBucket_noBucketMember (st : SchedState) (k : String) (o : Nat)
    (h : noBucketMember st.keyTasks o) : noBucketMember (st.getBucket k).1.keyTasks o := by
  rcases getBucket_keyTasks_cases st k with h' | h' <;> rw [h']
  · exact h
  · intro p hp
    rcases List.mem_append.mp hp with hp | hp
    · exact h p hp
    · simp only [List.mem_singleton] at hp
      rw [hp]
      simp

theorem foldl_cancelTask_nextId (olds : List Nat) (st : SchedState) :
    ((olds.foldl SchedState.cancelTask st)).nextId = st.nextId := by
  induction olds generalizing st with
  | nil => rfl
  | cons a rest ih =>
    simp only [List.foldl_cons]
    rw [ih, cancelTask_nextId]

theorem noBucketMember_setKey_nil (kt : List (String × List Nat)) (k : String) (o : Nat)
    (h : noBucketMember kt o) : noBucketMember (setKey kt k []) o := by
  intro p hp
  rcases mem_setKey hp with h' | h'
  · exact h p h'
  · rw [h']
    simp

theorem noBucketMember_setKey_append (kt : List (String × List Nat)) (k : String)
    (fid o : Nat) (h : noBucketMember kt o) (hne : o ≠ fid) :
    noBucketMember (setKey kt k (((lookupKey kt k).getD []) ++ [fid])) o := by
  intro p hp
  rcases mem_setKey hp with h' | h'
  · exact h p h'
  · rw [h']
    intro hm
    rcases List.mem_append.mp hm with hm | hm
    · cases hl : lookupKey kt k with
      | none =>
        rw [hl] at hm
        simp at hm
      | some b =>
        rw [hl] at hm
        simp only [Option.getD_some] at hm
        exact h (k, b) (lookupKey_some_mem hl) hm
    · simp only [List.mem_singleton] at hm
      exact hne hm

/-- Once a handle has been evicted from every bucket and is older than the
allocation counter, no later `run_background` call can re-introduce it into
any bucket: appends only ever add the freshly allocated id. -/
theorem runBackground_preserves_no_reappearance (st : SchedState) (coro : Nat)
    (key : Option String) (strategy : MultipleStrategy) (o : Nat)
    (hb : noBucketMember st.keyTasks o) (hid : o < st.nextId) :
    noBucketMember (st.runBackground coro key strategy).1.keyTasks o ∧
      o < (st.runBackground coro key strategy).1.nextId := by
  cases key with
  | none =>
    simp only [SchedState.runBackground]
    rw [schedule_keyTasks, schedule_nextId]
    exact ⟨hb, Nat.lt_succ_of_lt hid⟩
  | some k =>
    simp only [SchedState.runBackground]
    by_cases hs : strategy = MultipleStrategy.RUN_INDEPENDENT
    · rw [if_pos hs, schedule_keyTasks, schedule_nextId]
      exact ⟨hb, Nat.lt_succ_of_lt hid⟩
    · rw [if_neg hs]
      have hb₁ : noBucketMember (st.getBucket k).1.keyTasks o :=
        getBucket_noBucketMember st k o hb
      have hn₁ : (st.getBucket k).1.nextId = st.nextId := getBucket_nextId st k
      by_cases hr : strategy = MultipleStrategy.REJECT_NEW_TASK ∧
          (st.getBucket k).2.any (fun f => !((st.getBucket k).1.futOf f).isDone) = true
      · rw [if_pos hr]
        refine ⟨hb₁, ?_⟩
        rw [hn₁]
        exact Nat.lt_succ_of_lt hid
      · rw [if_neg hr]
        by_cases hc : strategy = MultipleStrategy.CANCEL_OLD_TASK ∧ (st.getBucket k).2 ≠ []
        · simp only [if_pos hc]
          constructor
          · apply noBucketMember_foldl_cancelTask
            apply noBucketMember_setKey_append
            · rw [schedule_keyTasks]
              exact noBucketMember_setKey_nil _ k o hb₁
            · rw [schedule_fid]
              intro hc'
              rw [hc'] at hid
              rw [hn₁] at hid
              exact Nat.lt_irrefl _ hid
          · rw [foldl_cancelTask_nextId]
            rw [schedule_nextId, hn₁]
            exact Nat.lt_succ_of_lt hid
        · simp only [if_neg hc]
          constructor
          · apply noBucketMember_foldl_cancelTask
            apply noBucketMember_setKey_append
            · rw [schedule_keyTasks]
              exact hb₁
            · rw [schedule_fid]
              intro hc'
              rw [hc'] at hid
              rw [hn₁] at hid
              exact Nat.lt_irrefl _ hid
          · rw [foldl_cancelTask_nextId]
            rw [schedule_nextId, hn₁]
            exact Nat.lt_succ_of_lt hid

/-- C5: `run_background` under `CANCEL_OLD_TASK` snapshots and clears the
bucket inside the `with lock:` block and requests cancellation of the
snapshotted handles only after the block exits (the action trace ends with
the `requestCancel` actions, strictly after `releaseKeyLock`); afterwards
the bucket holds exactly the fresh handle, every snapshotted handle is
cancelled (if it was still pending) or keeps its completed state — hence is
terminal — and an evicted handle can never re-enter any bucket through a
later `run_background` call. -/
theorem cancel_old_evicts_and_cancels_outside_lock :
    ∀ (st : SchedState) (coro : Nat) (k : String) (olds : List Nat),
      st.loopRunning = true →
      lookupKey st.keyTasks k = some olds →
      olds ≠ [] →
      (∀ o ∈ olds, o < st.nextId) →
      (∀ o ∈ olds, ∃ fs, lookupKey st.futs o = some fs ∧
        (fs = FutState.pending ∨ fs.isDone = true)) →
      (st.runBackground coro (some k) MultipleStrategy.CANCEL_OLD_TASK).2 = st.nextId ∧
      lookupKey
          (st.runBackground coro (some k) MultipleStrategy.CANCEL_OLD_TASK).1.keyTasks k
        = some [st.nextId] ∧
      (∀ o ∈ olds, ∀ fs, lookupKey st.futs o = some fs →
        lookupKey
            (st.runBackground coro (some k) MultipleStrategy.CANCEL_OLD_TASK).1.futs o =
          some (if fs = FutState.pending then FutState.cancelled else fs)) ∧
      (∀ o ∈ olds,
        (((st.runBackground coro (some k) MultipleStrategy.CANCEL_OLD_TASK).1.futOf
          o)).isDone = true) ∧
      st.runBackgroundActions coro (some k) MultipleStrategy.CANCEL_OLD_TASK =
        [RBAction.acquireKeyLock k, RBAction.snapshotAndClearBucket k olds,
         RBAction.scheduleOnLoop st.nextId, RBAction.appendToBucket k st.nextId,
         RBAction.registerCleanupHook st.nextId, RBAction.releaseKeyLock k]
        ++ olds.map RBAction.requestCancel ∧
      (∀ (st₂ : SchedState) (coro₂ : Nat) (key₂ : Option String)
         (strat₂ : MultipleStrategy) (o : Nat),
         noBucketMember st₂.keyTasks o → o < st₂.nextId →
         noBucketMember (st₂.runBackground coro₂ key₂ strat₂).1.keyTasks o ∧
           o < (st₂.runBackground coro₂ key₂ strat₂).1.nextId) := by
  intro st coro k olds hloop hbucket hne hfresh hstates
  have hshape := runBackground_cancel_old_shape st coro k olds hbucket hne hloop
  refine ⟨by rw [hshape], ?_, ?_, ?_, ?_, ?_⟩
  · rw [hshape]
    apply foldl_cancelTask_keyTasks_lookup
    · exact lookupKey_setKey_self _ k [st.nextId]
    · intro o ho hc
      have := hfresh o ho
      rw [hc] at this
      exact Nat.lt_irrefl _ this
  · intro o ho fs hl
    rw [hshape]
    obtain ⟨fs₀, hl₀, hp₀⟩ := hstates o ho
    rw [hl] at hl₀
    have hfs : fs₀ = fs := Option.some_inj.mp hl₀.symm
    rw [hfs] at hp₀
    exact foldl_cancelTask_final olds _ o ho fs (lookupKey_append_left hl) hp₀
  · intro o ho
    rw [hshape]
    obtain ⟨fs₀, hl₀, hp₀⟩ := hstates o ho
    unfold SchedState.futOf
    rw [foldl_cancelTask_final olds _ o ho fs₀ (lookupKey_append_left hl₀) hp₀]
    by_cases hps : fs₀ = FutState.pending
    · simp [hps, FutState.isDone]
    · rcases hp₀ with hp₀ | hp₀
      · exact absurd hp₀ hps
      · simp [hps, hp₀]
  · simp [SchedState.runBackgroundActions, SchedState.getBucket, hbucket, hne]
  · intro st₂ coro₂ key₂ strat₂ o hb hid
    exact runBackground_preserves_no_reappearance st₂ coro₂ key₂ strat₂ o hb hid

/-- Witness for C5 at `busyState` (bucket `"k"` holds the pending handle 0):
after `run_background(2, key='k', CANCEL_OLD_TASK)` the bucket holds only
the fresh handle 1, handle 0 is cancelled, and the trace cancels outside the
lock. -/
theorem cancel_old_evicts_and_cancels_outside_lock_witness :
    busyState.loopRunning = true ∧
    lookupKey busyState.keyTasks "k" = some [0] ∧
    ([0] : List Nat) ≠ [] ∧
    lookupKey
        (busyState.runBackground 2 (some "k") MultipleStrategy.CANCEL_OLD_TASK).1.keyTasks
        "k" = some [1] ∧
    lookupKey
        (busyState.runBackground 2 (some "k") MultipleStrategy.CANCEL_OLD_TASK).1.futs 0 =
      some FutState.cancelled ∧
    busyState.runBackgroundActions 2 (some "k") MultipleStrategy.CANCEL_OLD_TASK =
      [RBAction.acquireKeyLock "k", RBAction.snapshotAndClearBucket "k" [0],
       RBAction.scheduleOnLoop 1, RBAction.appendToBucket "k" 1,
       RBAction.registerCleanupHook 1, RBAction.releaseKeyLock "k",
       RBAction.requestCancel 0] := by
  have h := cancel_old_evicts_and_cancels_outside_lock busyState 2 "k" [0] rfl
    (by decide) (by decide) (by decide)
    (by
      intro o ho
      have ho0 : o = 0 := by simpa using ho
      rw [ho0]
      exact ⟨FutState.pending, rfl, Or.inl rfl⟩)
  refine ⟨rfl, by decide, by decide, h.2.1, ?_, by simpa using h.2.2.2.2.1⟩
  have h2 := h.2.2.1 0 (by decide) FutState.pending (by decide)
  simpa using h2

/-! ## `run_task`: the `_handle` done-callback and the `_tasks` registry -/

/-- A callback hand-off to the main execution context
(`self._invoke_main(...)`), in emission order. -/
inductive Invocation where
  | onSuccess (v : Nat)
  | onError (e : PyExn)
  | onDone (v : Option Nat)
  | cancelCb
deriving DecidableEq

/-- The `_handle` done-callback of `run_task`, as the ordered list of
`_invoke_main` emissions for a terminal future `f`.  `hs`/`hd`/`he`/`hc`
say whether `on_success`/`on_done`/`on_error`/a registered cancellation
callback are present.  Faithful to the source: `result` is `None` unless
`f.result()` returned; a cancelled future emits nothing in the first
stage; `except CancelledError: pass` swallows a `CancelledError` result;
`on_done` receives `None if f.cancelled() else result`; the `finally:`
clause pops and invokes the registered cancellation callback. -/
def handleInvocations (f : Outcome) (hs hd he hc : Bool) : List Invocation :=
  let result : Option Nat :=
    match f with
    | Outcome.success v => some v
    | _ => none
  let first : List Invocation :=
    match f with
    | Outcome.cancelledOut => []
    | Outcome.failure PyExn.cancelledError => []
    | Outcome.failure e => if he then [Invocation.onError e] else []
    | Outcome.success v => if hs then [Invocation.onSuccess v] else []
  let doneInvs : List Invocation :=
    if hd then
      [Invocation.onDone
        (match f with
         | Outcome.cancelledOut => none
         | _ => result)]
    else []
  let cbInvs : List Invocation := if hc then [Invocation.cancelCb] else []
  first ++ doneInvs ++ cbInvs

/-- C6: with all three channel callbacks supplied, a successful task emits
exactly `on_success(result)` then `on_done(result)`; a failed task emits
exactly `on_error(e)` then `on_done(None)`; a cancelled task emits only
`on_done(None)` — so exactly one of `on_success`/`on_error` fires per
completed-or-failed task (never both), neither fires on cancellation, and
`on_done` always fires exactly once afterwards with the result or `None`. -/
theorem run_task_callback_channels :
    (∀ (v : Nat) (hc : Bool), handleInvocations (Outcome.success v) true true true hc =
      [Invocation.onSuccess v, Invocation.onDone (some v)]
        ++ (if hc then [Invocation.cancelCb] else [])) ∧
    (∀ (c : Nat) (hc : Bool),
      handleInvocations (Outcome.failure (PyExn.exception c)) true true true hc =
      [Invocation.onError (PyExn.exception c), Invocation.onDone none]
        ++ (if hc then [Invocation.cancelCb] else [])) ∧
    (∀ hc : Bool, handleInvocations Outcome.cancelledOut true true true hc =
      [Invocation.onDone none] ++ (if hc then [Invocation.cancelCb] else [])) := by
  refine ⟨fun v hc => rfl, fun c hc => rfl, fun hc => rfl⟩

/-- The pop-then-invoke fragment shared by `cancel_task` and the `finally:`
clause of `_handle`: `cb = self._tasks.pop(fut, None); if cb:
self._invoke_main(cb)`. -/
def popInvoke (tasks : List (Nat × Nat)) (invoked : List Nat) (id : Nat) :
    List (Nat × Nat) × List Nat :=
  match lookupKey tasks id with
  | some cb => (eraseKey tasks id, invoked ++ [cb])
  | none => (tasks, invoked)

/-- Any interleaving of `cancel_task`-side and `_handle`-side pops on the
same handle, as a sequence of `popInvoke` runs. -/
def popInvokeSeq (tasks : List (Nat × Nat)) (invoked : List Nat) (ids : List Nat) :
    List (Nat × Nat) × List Nat :=
  ids.foldl (fun acc i => popInvoke acc.1 acc.2 i) (tasks, invoked)

theorem popInvokeSeq_empty_registry (invoked : List Nat) (ids : List Nat) :
    popInvokeSeq [] invoked ids = ([], invoked) := by
  induction ids with
  | nil => rfl
  | cons i rest ih =>
    simp only [popInvokeSeq, List.foldl_cons]
    simpa [popInvoke, lookupKey] using ih

/-- C10: the registered cancellation callback is reached by `_handle` on
every terminal outcome — success, failure and cancellation alike — and
however many times the pop-then-invoke fragment runs for a handle
(`cancel_task` and `_handle`'s `finally:` in any order), the registry entry
is removed on the first run and the callback is invoked exactly once. -/
theorem run_task_cancel_callback_fires_exactly_once :
    (∀ (f : Outcome) (hs hd he : Bool),
      Invocation.cancelCb ∈ handleInvocations f hs hd he true) ∧
    (∀ (id cb n : Nat), 1 ≤ n →
      popInvokeSeq [(id, cb)] [] (List.replicate n id) = ([], [cb])) := by
  constructor
  · intro f hs hd he
    cases f with
    | success v => simp [handleInvocations]
    | failure e => cases e <;> simp [handleInvocations]
    | cancelledOut => simp [handleInvocations]
  · intro id cb n hn
    cases n with
    | zero => cases hn
    | succ m =>
      simp only [List.replicate_succ, popInvokeSeq, List.foldl_cons]
      have h1 : popInvoke [(id, cb)] [] id = ([], [cb]) := by
        simp [popInvoke, lookupKey, eraseKey]
      rw [h1]
      exact popInvokeSeq_empty_registry [cb] (List.replicate m id)

/-- Witness for C10: with callback 7 registered for handle 3, two runs of
the fragment (a `cancel_task` racing `_handle`) invoke it exactly once. -/
theorem run_task_cancel_callback_fires_exactly_once_witness :
    1 ≤ 2 ∧ popInvokeSeq [(3, 7)] [] (List.replicate 2 3) = ([], [7]) :=
  ⟨by decide, run_task_cancel_callback_fires_exactly_once.2 3 7 2 (by decide)⟩

/-! ## `run_parallel`: fan-out and the `gather_all` fan-in -/

/-- Model of `LoopInThread.run_parallel`: schedule every coroutine via
`run_background` with the same key and strategy (collecting the
`concurrent.futures.Future`s in item order), then schedule the
`gather_all()` closure over those futures via `_schedule`. -/
def SchedState.runParallel (st : SchedState) (coros : List Nat) (key : Option String)
    (strategy : MultipleStrategy) : SchedState × List Nat × Nat :=
  let acc := coros.foldl
    (fun (acc : SchedState × List Nat) c =>
      let r := acc.1.runBackground c key strategy
      (r.1, acc.2 ++ [r.2]))
    (st, [])
  let g := acc.1.schedule (Work.gatherAll acc.2)
  (g.1, acc.2, g.2)

/-- Reference recursion: run `run_background` once per item, in order, with
the same key and strategy, threading the state. -/
def runBackgroundMany (st : SchedState) (coros : List Nat) (key : Option String)
    (strategy : MultipleStrategy) : SchedState × List Nat :=
  match coros with
  | [] => (st, [])
  | c :: rest =>
    let r := st.runBackground c key strategy
    let q := runBackgroundMany r.1 rest key strategy
    (q.1, r.2 :: q.2)

theorem runParallel_foldl_spec (coros : List Nat) (st : SchedState)
    (key : Option String) (strategy : MultipleStrategy) (handles : List Nat) :
    coros.foldl
      (fun (acc : SchedState × List Nat) c =>
        let r := acc.1.runBackground c key strategy
        (r.1, acc.2 ++ [r.2]))
      (st, handles) =
    ((runBackgroundMany st coros key strategy).1,
      handles ++ (runBackgroundMany st coros key strategy).2) := by
  induction coros generalizing st handles with
  | nil => simp [runBackgroundMany]
  | cons c rest ih =>
    simp only [List.foldl_cons, runBackgroundMany]
    rw [ih]
    simp

/-- Completion outcome of the gather fan-in. -/
inductive GatherOutcome where
  | allOk (results : List Nat)
  | firstErr (e : PyExn)
  | firstCancelled
deriving DecidableEq

def Outcome.isSuccess : Outcome → Bool
  | Outcome.success _ => true
  | _ => false

/-- Model of `await asyncio.gather(*async_futs)` with the default
`return_exceptions=False`, processing the children's completion events in
completion-time order (`order` lists child indices by completion time,
`outcomes` lists each child's terminal outcome by child index): the gather
future finishes with the first non-successful child event — without
cancelling the remaining children, whose events still occur — and if every
child succeeds it finishes after the last event with the results in child
index order. -/
def gatherRun (outcomes : List Outcome) : List Nat → GatherOutcome
  | [] => GatherOutcome.allOk (outcomes.map fun o =>
      match o with
      | Outcome.success v => v
      | _ => 0)
  | i :: rest =>
    match outcomes.getD i (Outcome.success 0) with
    | Outcome.success _ => gatherRun outcomes rest
    | Outcome.failure e => GatherOutcome.firstErr e
    | Outcome.cancelledOut => GatherOutcome.firstCancelled

theorem runBackgroundMany_length (coros : List Nat) (st : SchedState)
    (key : Option String) (strategy : MultipleStrategy) :
    (runBackgroundMany st coros key strategy).2.length = coros.length := by
  induction coros generalizing st with
  | nil => rfl
  | cons c rest ih => simp [runBackgroundMany, ih]

theorem getD_success_of_all_success (outcomes : List Outcome) (i : Nat)
    (h : ∀ o ∈ outcomes, o.isSuccess = true) :
    (outcomes.getD i (Outcome.success 0)).isSuccess = true := by
  rw [List.getD_eq_getElem?_getD]
  cases hg : outcomes[i]? with
  | none => simp [Outcome.isSuccess]
  | some o => simpa using h o (List.getElem?_mem hg)

/-- C7: `run_parallel` schedules every item through `run_background` with
the caller's key and strategy — the composite then schedules `gather_all`
over exactly those handles, one handle per item, in item order — and the
gather fan-in yields the results in item (not completion) order when every
child succeeds, while the first failing child's event completes the
composite with that failure regardless of the later children's events
(those children are not cancelled; their completion events still occur). -/
theorem run_parallel_fans_out_and_gathers_in_order :
    (∀ (st : SchedState) (coros : List Nat) (key : Option String)
       (strategy : MultipleStrategy),
       st.runParallel coros key strategy =
         (((runBackgroundMany st coros key strategy).1.schedule
             (Work.gatherAll (runBackgroundMany st coros key strategy).2)).1,
          (runBackgroundMany st coros key strategy).2,
          ((runBackgroundMany st coros key strategy).1.schedule
             (Work.gatherAll (runBackgroundMany st coros key strategy).2)).2) ∧
       (runBackgroundMany st coros key strategy).2.length = coros.length) ∧
    (∀ (outcomes : List Outcome) (order : List Nat),
       (∀ o ∈ outcomes, o.isSuccess = true) →
       gatherRun outcomes order =
         GatherOutcome.allOk (outcomes.map fun o =>
           match o with
           | Outcome.success v => v
           | _ => 0)) ∧
    (∀ (outcomes : List Outcome) (pre : List Nat) (i : Nat) (post : List Nat)
       (e : PyExn),
       (∀ j ∈ pre, (outcomes.getD j (Outcome.success 0)).isSuccess = true) →
       outcomes.getD i (Outcome.success 0) = Outcome.failure e →
       gatherRun outcomes (pre ++ i :: post) = GatherOutcome.firstErr e) := by
  refine ⟨?_, ?_, ?_⟩
  · intro st coros key strategy
    constructor
    · unfold SchedState.runParallel
      rw [runParallel_foldl_spec coros st key strategy []]
      simp
    · exact runBackgroundMany_length coros st key strategy
  · intro outcomes order hall
    induction order with
    | nil => rfl
    | cons i rest ih =>
      have hs := getD_success_of_all_success outcomes i hall
      cases hg : outcomes.getD i (Outcome.success 0) with
      | success v => simp only [gatherRun, hg]; exact ih
      | failure e => rw [hg] at hs; cases hs
      | cancelledOut => rw [hg] at hs; cases hs
  · intro outcomes pre i post e hpre hfail
    induction pre with
    | nil =>
      simp only [List.nil_append, gatherRun, hfail]
    | cons j rest ih =>
      have hsj := hpre j (by simp)
      cases hg : outcomes.getD j (Outcome.success 0) with
      | success v =>
        simp only [List.cons_append, gatherRun, hg]
        exact ih (fun x hx => hpre x (by simp [hx]))
      | failure e' => rw [hg] at hsj; cases hsj
      | cancelledOut => rw [hg] at hsj; cases hsj

/-- Witness for C7: two children where child 0 succeeds first and child 1
fails second — the composite fails with child 1's exception even though a
third event (child 0 is already done) would follow; and with both children
succeeding the results come back in item order. -/
theorem run_parallel_fans_out_and_gathers_in_order_witness :
    (∀ o ∈ [Outcome.success 4, Outcome.success 9], o.isSuccess = true) ∧
    gatherRun [Outcome.success 4, Outcome.success 9] [1, 0] =
      GatherOutcome.allOk [4, 9] ∧
    gatherRun [Outcome.success 4, Outcome.failure (PyExn.exception 2)] [0, 1] =
      GatherOutcome.firstErr (PyExn.exception 2) := by
  refine ⟨by decide, ?_, ?_⟩
  · exact run_parallel_fans_out_and_gathers_in_order.2.1
      [Outcome.success 4, Outcome.success 9] [1, 0] (by decide)
  · exact run_parallel_fans_out_and_gathers_in_order.2.2
      [Outcome.success 4, Outcome.failure (PyExn.exception 2)] [0] 1 [] (PyExn.exception 2)
      (by decide) (by decide)

/-! ## `stop(timeout)` -/

/-- Environment outcomes that `stop` reacts to: what
`fut.result(timeout=timeout)` on the graceful-shutdown future does
(`Except.ok` for a clean finish, `Except.error e` when it raises — a
`TimeoutError` or whatever escaped the shutdown coroutine), and whether the
worker thread / loop are still alive after `thread.join(timeout)`. -/
structure StopInputs where
  gracefulOutcome : Except PyExn Unit
  threadAliveAfterJoin : Bool
  loopRunningAfterJoin : Bool

/-- Lifecycle fields that `stop` reads and writes: the `_loop`/`_thread`
ownership fields (`None` = absent), `loop.is_running()` at entry, whether
`loop.close()` has run, and the `_tasks` registry with its emitted
cancellation callbacks. -/
structure RunnerLifecycle where
  loopPresent : Bool
  threadPresent : Bool
  loopRunningAtEntry : Bool
  loopClosed : Bool
  tasks : List (Nat × Nat)
  invoked : List Nat
deriving DecidableEq

inductive LogEvent where
  | warnGracefulShutdownFailed
  | errLoopThreadDidNotStop
deriving DecidableEq

/-- Model of `LoopInThread.stop`: cancel every registered pending task (invoking its
callback), return if loop or thread is absent; if the loop runs, run the
graceful-shutdown coroutine and wait up to `timeout` — `except Exception`
turns a failure or timeout into a warning log; then stop the loop and join
the thread, and if the thread is still alive (or the loop still running)
log an error and return without closing, leaving both ownership fields
set; otherwise close the loop and reset both fields.  The third component
is the exception `stop` raises to its caller, if any. -/
def stopRun (st : RunnerLifecycle) (inp : StopInputs) :
    RunnerLifecycle × List LogEvent × Option PyExn :=
  let st0 : RunnerLifecycle :=
    { st with tasks := [], invoked := st.invoked ++ st.tasks.map Prod.snd }
  if ¬ st0.loopPresent ∨ ¬ st0.threadPresent then (st0, [], none)
  else if st0.loopRunningAtEntry then
    let gl : List LogEvent × Option PyExn :=
      match inp.gracefulOutcome with
      | Except.ok _ => ([], none)
      | Except.error e =>
        if e.isExceptionSubclass then ([LogEvent.warnGracefulShutdownFailed], none)
        else ([], some e)
    match gl.2 with
    | some e => (st0, gl.1, some e)
    | none =>
      if inp.threadAliveAfterJoin ∨ inp.loopRunningAfterJoin then
        (st0, gl.1 ++ [LogEvent.errLoopThreadDidNotStop], none)
      else
        ({ st0 with loopClosed := true, loopPresent := false, threadPresent := false },
         gl.1, none)
  else
    ({ st0 with loopClosed := true, loopPresent := false, threadPresent := false },
     [], none)

/-- C8: `stop` raises nothing to its caller (for every realizable
graceful-phase outcome, i.e. one whose exception is an `Exception`
subclass, as `fut.result` delivers); a failed graceful phase is logged with
a warning and the procedure continues; if the thread survives the join (or
the loop still runs) `stop` returns with the loop unclosed and both
ownership fields still set, logging an error; otherwise it closes the loop
and resets both fields to `None`. -/
theorem stop_never_raises_and_degrades_gracefully :
    ∀ (st : RunnerLifecycle) (inp : StopInputs),
      (∀ e, inp.gracefulOutcome = Except.error e → e.isExceptionSubclass = true) →
      (stopRun st inp).2.2 = none ∧
      (st.loopPresent = true → st.threadPresent = true → st.loopRunningAtEntry = true →
        ∀ e, inp.gracefulOutcome = Except.error e →
          LogEvent.warnGracefulShutdownFailed ∈ (stopRun st inp).2.1) ∧
      (st.loopPresent = true → st.threadPresent = true → st.loopRunningAtEntry = true →
        (inp.threadAliveAfterJoin = true ∨ inp.loopRunningAfterJoin = true) →
        (stopRun st inp).1.loopPresent = true ∧
        (stopRun st inp).1.threadPresent = true ∧
        (stopRun st inp).1.loopClosed = st.loopClosed ∧
        LogEvent.errLoopThreadDidNotStop ∈ (stopRun st inp).2.1) ∧
      (st.loopPresent = true → st.threadPresent = true → st.loopRunningAtEntry = true →
        inp.threadAliveAfterJoin = false → inp.loopRunningAfterJoin = false →
        (stopRun st inp).1.loopClosed = true ∧
        (stopRun st inp).1.loopPresent = false ∧
        (stopRun st inp).1.threadPresent = false) ∧
      (st.loopPresent = true → st.threadPresent = true → st.loopRunningAtEntry = false →
        (stopRun st inp).1.loopClosed = true ∧
        (stopRun st inp).1.loopPresent = false ∧
        (stopRun st inp).1.threadPresent = false) := by
  intro st inp hreal
  obtain ⟨lp, tp, lr, lc, tk, iv⟩ := st
  obtain ⟨go, ta, la⟩ := inp
  cases go with
  | ok u =>
    cases lp <;> cases tp <;> cases lr <;> cases ta <;> cases la <;>
      simp [stopRun]
  | error e =>
    have he : e.isExceptionSubclass = true := hreal e rfl
    cases lp <;> cases tp <;> cases lr <;> cases ta <;> cases la <;>
      simp [stopRun, he]

/-- Witness for C8: a concrete runner whose graceful phase times out
(`TimeoutError`, an `Exception` subclass) and whose thread refuses to die:
`stop` raises nothing, logs both events, and leaves loop and thread set. -/
theorem stop_never_raises_and_degrades_gracefully_witness :
    (∀ e, (Except.error (PyExn.exception 0) : Except PyExn Unit) = Except.error e →
      e.isExceptionSubclass = true) ∧
    (stopRun
      { loopPresent := true, threadPresent := true, loopRunningAtEntry := true,
        loopClosed := false, tasks := [(0, 5)], invoked := [] }
      { gracefulOutcome := Except.error (PyExn.exception 0),
        threadAliveAfterJoin := true, loopRunningAfterJoin := false }).2.2 = none ∧
    (stopRun
      { loopPresent := true, threadPresent := true, loopRunningAtEntry := true,
        loopClosed := false, tasks := [(0, 5)], invoked := [] }
      { gracefulOutcome := Except.error (PyExn.exception 0),
        threadAliveAfterJoin := true, loopRunningAfterJoin := false }).1.loopPresent
      = true := by
  have hreal : ∀ e, (Except.error (PyExn.exception 0) : Except PyExn Unit) =
      Except.error e → e.isExceptionSubclass = true := by
    intro e he
    cases he
    rfl
  refine ⟨hreal, ?_, ?_⟩
  · exact (stop_never_raises_and_degrades_gracefully _ _ hreal).1
  · exact ((stop_never_raises_and_degrades_gracefully _ _ hreal).2.2.1 rfl rfl rfl
      (Or.inl rfl)).1

/-! ## The cleanup hook: eviction, pop and idempotence (C9) -/

/-- A state with no `_key_tasks` entry and no `_locks` entry for `k` stays
that way under further `cleanup` runs for `k` (the pops are no-ops). -/
theorem cleanup_gone_absorbing (st : SchedState) (k : String) (i : Nat)
    (h1 : lookupKey st.keyTasks k = none) (h2 : k ∉ st.locks) :
    lookupKey (st.cleanup k i).keyTasks k = none ∧ k ∉ (st.cleanup k i).locks := by
  unfold SchedState.cleanup
  rw [h1]
  simp only [Option.getD_none, List.erase_nil, if_pos rfl]
  constructor
  · rw [eraseKey_not_mem _ _ h1]
    exact h1
  · intro hm
    exact h2 (List.mem_of_mem_erase hm)

theorem cleanup_fold_gone_absorbing (ids : List Nat) (st : SchedState) (k : String)
    (h1 : lookupKey st.keyTasks k = none) (h2 : k ∉ st.locks) :
    lookupKey ((ids.foldl (fun s i => SchedState.cleanup s k i) st)).keyTasks k = none ∧
    k ∉ ((ids.foldl (fun s i => SchedState.cleanup s k i) st)).locks := by
  induction ids generalizing st with
  | nil => exact ⟨h1, h2⟩
  | cons i rest ih =>
    simp only [List.foldl_cons]
    obtain ⟨g1, g2⟩ := cleanup_gone_absorbing st k i h1 h2
    exact ih _ g1 g2

/-- C9: the registered cleanup hook (`cleanup` in `run_background`) removes
the completed handle from its bucket, as a no-op when the handle was
already evicted; when the bucket becomes empty it pops both the bucket and
the per-key lock from the two global maps; running the hook twice equals
running it once; and once the hooks of all of a bucket's members have run —
in any order, interleaved with any number of no-op runs for evicted
handles — neither a bucket nor a lock entry remains for that key. -/
theorem cleanup_hook_evicts_pops_and_is_idempotent :
    (∀ (st : SchedState) (k : String) (id : Nat) (b : List Nat),
       lookupKey st.keyTasks k = some b → id ∉ b → b ≠ [] →
       (st.cleanup k id).keyTasks = st.keyTasks ∧ (st.cleanup k id).locks = st.locks) ∧
    (∀ (st : SchedState) (k : String) (id : Nat) (b : List Nat),
       (keysOf st.keyTasks).Nodup → st.locks.Nodup →
       lookupKey st.keyTasks k = some b → b.erase id = [] →
       lookupKey (st.cleanup k id).keyTasks k = none ∧ k ∉ (st.cleanup k id).locks) ∧
    (∀ (st : SchedState) (k : String) (id : Nat),
       (keysOf st.keyTasks).Nodup → st.locks.Nodup →
       (∀ b, lookupKey st.keyTasks k = some b → b.Nodup) →
       (st.cleanup k id).cleanup k id = st.cleanup k id) ∧
    (∀ (st : SchedState) (k : String) (b : List Nat) (ids : List Nat),
       (keysOf st.keyTasks).Nodup → st.locks.Nodup →
       lookupKey st.keyTasks k = some b → b.Nodup → ids ≠ [] →
       (∀ x ∈ b, x ∈ ids) →
       lookupKey ((ids.foldl (fun s i => SchedState.cleanup s k i) st)).keyTasks k
         = none ∧
       k ∉ ((ids.foldl (fun s i => SchedState.cleanup s k i) st)).locks) := by
  refine ⟨?_, ?_, ?_, ?_⟩
  · -- (a) no-op removal for an evicted handle
    intro st k id b hb hid hne
    unfold SchedState.cleanup
    rw [hb]
    simp only [Option.getD_some, List.erase_of_not_mem hid, if_neg hne]
    exact ⟨setKey_self _ k b hb, trivial⟩
  · -- (b) emptying removal pops bucket and lock
    intro st k id b hkeys hlocks hb hdel
    unfold SchedState.cleanup
    rw [hb]
    simp only [Option.getD_some, hdel, if_pos rfl]
    exact ⟨lookupKey_eraseKey_self _ k hkeys, List.Nodup.not_mem_erase hlocks⟩
  · -- (c) idempotence
    intro st k id hkeys hlocks hnodup
    cases hb : lookupKey st.keyTasks k with
    | none =>
      have hstep : st.cleanup k id = { st with locks := st.locks.erase k } := by
        simp [SchedState.cleanup, hb, eraseKey_not_mem _ _ hb]
      rw [hstep]
      simp [SchedState.cleanup, hb, eraseKey_not_mem _ _ hb,
        List.erase_of_not_mem (List.Nodup.not_mem_erase hlocks)]
    | some b =>
      by_cases hdel : b.erase id = []
      · have hstep : st.cleanup k id =
            { st with keyTasks := eraseKey st.keyTasks k, locks := st.locks.erase k } := by
          simp [SchedState.cleanup, hb, hdel]
        rw [hstep]
        have hnone : lookupKey (eraseKey st.keyTasks k) k = none :=
          lookupKey_eraseKey_self _ k hkeys
        simp [SchedState.cleanup, hnone, eraseKey_not_mem _ _ hnone,
          List.erase_of_not_mem (List.Nodup.not_mem_erase hlocks)]
      · have hstep : st.cleanup k id =
            { st with keyTasks := setKey st.keyTasks k (b.erase id) } := by
          simp [SchedState.cleanup, hb, hdel]
        rw [hstep]
        have hlook : lookupKey (setKey st.keyTasks k (b.erase id)) k = some (b.erase id) :=
          lookupKey_setKey_self _ k _
        have hnotm : id ∉ b.erase id := List.Nodup.not_mem_erase (hnodup b hb)
        simp [SchedState.cleanup, hlook, List.erase_of_not_mem hnotm, hdel,
          setKey_self _ k _ hlook]
  · -- (d) draining every member pops both entries
    intro st k b ids hkeys hlocks hb hbnodup hne hcover
    induction ids generalizing st b with
    | nil => exact absurd rfl hne
    | cons i rest ih =>
      simp only [List.foldl_cons]
      by_cases hdel : b.erase i = []
      · have hstep : st.cleanup k i =
            { st with keyTasks := eraseKey st.keyTasks k, locks := st.locks.erase k } := by
          simp [SchedState.cleanup, hb, hdel]
        rw [hstep]
        exact cleanup_fold_gone_absorbing rest _ k
          (lookupKey_eraseKey_self _ k hkeys)
          (List.Nodup.not_mem_erase hlocks)
      · have hstep : st.cleanup k i =
            { st with keyTasks := setKey st.keyTasks k (b.erase i) } := by
          simp [SchedState.cleanup, hb, hdel]
        rw [hstep]
        have hex : ∃ x, x ∈ b.erase i := by
          cases hbe : b.erase i with
          | nil => exact absurd hbe hdel
          | cons y ys => exact ⟨y, by simp [hbe]⟩
        obtain ⟨x0, hx0⟩ := hex
        have hrestne : rest ≠ [] := by
          intro hr
          have hx0b : x0 ∈ b := List.mem_of_mem_erase hx0
          have := hcover x0 hx0b
          rw [hr] at this
          simp at this
          rw [this] at hx0
          exact List.Nodup.not_mem_erase (hbnodup) hx0
        refine ih _ (b.erase i) (keysOf_setKey_nodup _ k _ hkeys) hlocks
          (lookupKey_setKey_self _ k _) (List.Nodup.erase i hbnodup) hrestne ?_
        intro x hx
        have hxb : x ∈ b := List.mem_of_mem_erase hx
        have hxne : x ≠ i := by
          intro hc
          rw [hc] at hx
          exact List.Nodup.not_mem_erase hbnodup hx
        have := hcover x hxb
        simp only [List.mem_cons] at this
        rcases this with h | h
        · exact absurd h hxne
        · exact h

/-- A registry whose bucket `"k"` holds the two terminal handles 0 and 1,
for the C9 witness. -/
def drainState : SchedState :=
  { loopRunning := true,
    futs := [(0, FutState.cancelled), (1, FutState.finishedOk 2)],
    scheduled := [], keyTasks := [("k", [0, 1])], locks := ["k"], hooks := [],
    tasks := [], invoked := [], nextId := 2 }

/-- Witness for C9: running the cleanup hook for handles 1 then 0 (any
order covering the bucket) removes bucket and lock entries for `"k"`. -/
theorem cleanup_hook_evicts_pops_and_is_idempotent_witness :
    (keysOf drainState.keyTasks).Nodup ∧ drainState.locks.Nodup ∧
    lookupKey drainState.keyTasks "k" = some [0, 1] ∧
    ([0, 1] : List Nat).Nodup ∧ ([1, 0] : List Nat) ≠ [] ∧
    (∀ x ∈ ([0, 1] : List Nat), x ∈ ([1, 0] : List Nat)) ∧
    lookupKey ((([1, 0] : List Nat).foldl (fun s i => SchedState.cleanup s "k" i)
      drainState)).keyTasks "k" = none ∧
    "k" ∉ ((([1, 0] : List Nat).foldl (fun s i => SchedState.cleanup s "k" i)
      drainState)).locks := by
  refine ⟨by decide, by decide, by decide, by decide, by decide, by decide, ?_, ?_⟩
  · exact (cleanup_hook_evicts_pops_and_is_idempotent.2.2.2 drainState "k" [0, 1] [1, 0]
      (by decide) (by decide) (by decide) (by decide) (by decide) (by decide)).1
  · exact (cleanup_hook_evicts_pops_and_is_idempotent.2.2.2 drainState "k" [0, 1] [1, 0]
      (by decide) (by decide) (by decide) (by decide) (by decide) (by decide)).2

end BitcoinSafeLib
